import Mathlib

/-!
Verification development for a C chess engine (chess.c / stockfish.c / main.c).

The data model and every operation below are shallow embeddings of the C
source: machine `int` coordinates become `Int`, the 8x8 `Piece` array becomes
a total function `Int → Int → Piece` (the C array is only ever accessed in
bounds; out-of-bounds cells of the function are irrelevant junk kept
normalised to the empty piece by all reachable flows), C functions that
mutate the `ChessGame*` become functions returning the new state (paired
with their `bool` result where the C function returns one), and C strings
become `List Char`.
-/

namespace Chess

/-- PieceType enum from chess.h (EMPTY = 0 .. KING = 6). -/
inductive PieceType where
  | EMPTY
  | PAWN
  | ROOK
  | KNIGHT
  | BISHOP
  | QUEEN
  | KING
deriving DecidableEq, Repr

/-- Color enum from chess.h (WHITE = 0, BLACK = 1). -/
inductive Color where
  | WHITE
  | BLACK
deriving DecidableEq, Repr

/-- Piece struct from chess.h: a (type, color) pair. -/
structure Piece where
  type : PieceType
  color : Color
deriving DecidableEq, Repr

/-- The value `(Piece){EMPTY, WHITE}` used by the C code for vacant squares. -/
def emptyPiece : Piece := ⟨PieceType.EMPTY, Color.WHITE⟩

/-- Position struct from chess.h: 0-based (row, col), row 0 = rank 8. -/
structure Position where
  row : Int
  col : Int
deriving DecidableEq, Repr

/-- Move struct from chess.h. The C fields `from` and `to` are spelled `frm`
and `dest` here (`from` and `to` are reserved words in Lean). -/
structure Move where
  frm : Position
  dest : Position
  captured : Piece
  is_capture : Bool
  is_check : Bool
  is_checkmate : Bool
  is_promotion : Bool
  promotion_piece : PieceType
deriving DecidableEq, Repr

/-- ChessGame struct from chess.h, restricted to the fields the core engine
functions read or write.  The capture arrays are lists (the C code appends at
`count`), `in_check[2]` becomes two Bool fields.  The timer fields and
`last_move` are never touched by any function modelled here and are omitted. -/
structure ChessGame where
  board : Int → Int → Piece
  current_player : Color
  white_captured : List Piece
  black_captured : List Piece
  white_king_moved : Bool
  black_king_moved : Bool
  white_rook_a_moved : Bool
  white_rook_h_moved : Bool
  black_rook_a_moved : Bool
  black_rook_h_moved : Bool
  white_king_pos : Position
  black_king_pos : Position
  in_check_white : Bool
  in_check_black : Bool
  halfmove_clock : Int
  fullmove_number : Int
  en_passant_target : Position
  en_passant_available : Bool

/-- Read of `game->in_check[color]`. -/
def ChessGame.inCheck (g : ChessGame) : Color → Bool
  | Color.WHITE => g.in_check_white
  | Color.BLACK => g.in_check_black

/-- The opponent color, `(color == WHITE) ? BLACK : WHITE`. -/
def Color.opp : Color → Color
  | Color.WHITE => Color.BLACK
  | Color.BLACK => Color.WHITE

/-- Pointwise update of one board cell (a C array store). -/
def boardSet (b : Int → Int → Piece) (row col : Int) (p : Piece) : Int → Int → Piece :=
  fun r c => if r = row ∧ c = col then p else b r c

/-- chess.c is_valid_position. -/
def is_valid_position (row col : Int) : Bool :=
  decide (0 ≤ row ∧ row < 8 ∧ 0 ≤ col ∧ col < 8)

/-- chess.c get_piece_at (a raw in-bounds array read in C). -/
def get_piece_at (g : ChessGame) (row col : Int) : Piece :=
  g.board row col

/-- chess.c is_piece_at. -/
def is_piece_at (g : ChessGame) (row col : Int) : Bool :=
  decide ((g.board row col).type ≠ PieceType.EMPTY)

/-- chess.c set_piece_at (a raw array store in C; all call sites are in
bounds). -/
def set_piece_at (g : ChessGame) (row col : Int) (piece : Piece) : ChessGame :=
  { g with board := boardSet g.board row col piece }

/-- chess.c clear_position: stores `(Piece){EMPTY, WHITE}`. -/
def clear_position (g : ChessGame) (row col : Int) : ChessGame :=
  { g with board := boardSet g.board row col emptyPiece }

/-- The back rank used by init_board (col 0 = rook .. col 7 = rook).
Out-of-range columns never occur in C; they map to the empty piece. -/
def backRank (c : Color) (col : Int) : Piece :=
  if col = 0 then ⟨PieceType.ROOK, c⟩
  else if col = 1 then ⟨PieceType.KNIGHT, c⟩
  else if col = 2 then ⟨PieceType.BISHOP, c⟩
  else if col = 3 then ⟨PieceType.QUEEN, c⟩
  else if col = 4 then ⟨PieceType.KING, c⟩
  else if col = 5 then ⟨PieceType.BISHOP, c⟩
  else if col = 6 then ⟨PieceType.KNIGHT, c⟩
  else if col = 7 then ⟨PieceType.ROOK, c⟩
  else emptyPiece

/-- The board laid out by chess.c init_board. -/
def initBoard : Int → Int → Piece := fun row col =>
  if ¬ (0 ≤ col ∧ col < 8) then emptyPiece
  else if row = 0 then backRank Color.BLACK col
  else if row = 1 then ⟨PieceType.PAWN, Color.BLACK⟩
  else if row = 6 then ⟨PieceType.PAWN, Color.WHITE⟩
  else if row = 7 then backRank Color.WHITE col
  else emptyPiece

/-- chess.c init_board: the standard starting game state. -/
def init_board : ChessGame :=
  { board := initBoard
    current_player := Color.WHITE
    white_captured := []
    black_captured := []
    white_king_moved := false
    black_king_moved := false
    white_rook_a_moved := false
    white_rook_h_moved := false
    black_rook_a_moved := false
    black_rook_h_moved := false
    white_king_pos := ⟨7, 4⟩
    black_king_pos := ⟨0, 4⟩
    in_check_white := false
    in_check_black := false
    halfmove_clock := 0
    fullmove_number := 1
    en_passant_target := ⟨-1, -1⟩
    en_passant_available := false }

/-- chess.c get_pawn_moves: forward push, double push from the home rank,
diagonal captures, and the en-passant capture onto the recorded target. -/
def get_pawn_moves (g : ChessGame) (frm : Position) : List Position :=
  let piece := get_piece_at g frm.row frm.col
  let direction : Int := if piece.color = Color.WHITE then -1 else 1
  let start_row : Int := if piece.color = Color.WHITE then 6 else 1
  let forward : List Position :=
    let new_row := frm.row + direction
    if is_valid_position new_row frm.col && !(is_piece_at g new_row frm.col) then
      ⟨new_row, frm.col⟩ ::
        (if frm.row = start_row then
          let new_row2 := frm.row + 2 * direction
          if is_valid_position new_row2 frm.col && !(is_piece_at g new_row2 frm.col) then
            [⟨new_row2, frm.col⟩]
          else []
        else [])
    else []
  let captures : List Position :=
    ([frm.col - 1, frm.col + 1] : List Int).filterMap fun new_col =>
      let new_row := frm.row + direction
      if is_valid_position new_row new_col && is_piece_at g new_row new_col &&
          decide ((get_piece_at g new_row new_col).color ≠ piece.color) then
        some ⟨new_row, new_col⟩
      else none
  let enPassant : List Position :=
    if g.en_passant_available then
      let en_passant_rank : Int := if piece.color = Color.WHITE then 3 else 4
      if frm.row = en_passant_rank ∧
          (frm.col - g.en_passant_target.col).natAbs = 1 ∧
          g.en_passant_target.row = frm.row + direction then
        [g.en_passant_target]
      else []
    else []
  forward ++ captures ++ enPassant

/-- One ray of a sliding piece: squares `frm + i*(dr,dc)` for `i = i0, i0+1, ...`
with the C loop's stop conditions (board edge; enemy piece inclusive; friendly
piece exclusive).  `fuel` bounds the iteration count (the C loop runs
`i = 1 .. 7`). -/
def rayMoves (g : ChessGame) (pc : Color) (frm : Position) (dr dc : Int) :
    Int → Nat → List Position
  | _, 0 => []
  | i, fuel + 1 =>
    let new_row := frm.row + dr * i
    let new_col := frm.col + dc * i
    if !(is_valid_position new_row new_col) then []
    else if is_piece_at g new_row new_col then
      if decide ((get_piece_at g new_row new_col).color ≠ pc) then [⟨new_row, new_col⟩]
      else []
    else ⟨new_row, new_col⟩ :: rayMoves g pc frm dr dc (i + 1) fuel

/-- chess.c get_rook_moves: rays in the four rook directions, in source order. -/
def get_rook_moves (g : ChessGame) (frm : Position) : List Position :=
  let pc := (get_piece_at g frm.row frm.col).color
  rayMoves g pc frm (-1) 0 1 7 ++ rayMoves g pc frm 1 0 1 7 ++
    rayMoves g pc frm 0 (-1) 1 7 ++ rayMoves g pc frm 0 1 1 7

/-- chess.c get_bishop_moves: rays in the four diagonal directions. -/
def get_bishop_moves (g : ChessGame) (frm : Position) : List Position :=
  let pc := (get_piece_at g frm.row frm.col).color
  rayMoves g pc frm (-1) (-1) 1 7 ++ rayMoves g pc frm (-1) 1 1 7 ++
    rayMoves g pc frm 1 (-1) 1 7 ++ rayMoves g pc frm 1 1 1 7

/-- chess.c get_knight_moves: the 8 fixed offsets, filtered to in-bounds
squares not occupied by a friendly piece. -/
def get_knight_moves (g : ChessGame) (frm : Position) : List Position :=
  let pc := (get_piece_at g frm.row frm.col).color
  ([(-2, -1), (-2, 1), (-1, -2), (-1, 2), (1, -2), (1, 2), (2, -1), (2, 1)] :
      List (Int × Int)).filterMap fun d =>
    let new_row := frm.row + d.1
    let new_col := frm.col + d.2
    if is_valid_position new_row new_col &&
        (!(is_piece_at g new_row new_col) ||
          decide ((get_piece_at g new_row new_col).color ≠ pc)) then
      some ⟨new_row, new_col⟩
    else none

/-- chess.c get_queen_moves: rook moves followed by bishop moves. -/
def get_queen_moves (g : ChessGame) (frm : Position) : List Position :=
  get_rook_moves g frm ++ get_bishop_moves g frm

/-- chess.c get_king_moves_no_castling: the 8 adjacent squares, filtered as
for the knight.  Used by the attack evaluator to avoid unbounded recursion. -/
def get_king_moves_no_castling (g : ChessGame) (frm : Position) : List Position :=
  let pc := (get_piece_at g frm.row frm.col).color
  ([(-1, -1), (-1, 0), (-1, 1), (0, -1), (0, 1), (1, -1), (1, 0), (1, 1)] :
      List (Int × Int)).filterMap fun d =>
    let new_row := frm.row + d.1
    let new_col := frm.col + d.2
    if is_valid_position new_row new_col &&
        (!(is_piece_at g new_row new_col) ||
          decide ((get_piece_at g new_row new_col).color ≠ pc)) then
      some ⟨new_row, new_col⟩
    else none

/-- The body of chess.c is_square_attacked, parametrised by the generator used
for non-king pieces.  The C function scans every square holding a piece of
`by_color`, temporarily sets `current_player = by_color`, generates that
piece's moves (using get_king_moves_no_castling for a king, to break the
recursion with castling), restores `current_player`, and reports whether
`pos` appears among the generated moves. -/
def is_square_attacked_with (gen : ChessGame → Position → List Position)
    (g : ChessGame) (pos : Position) (by_color : Color) : Bool :=
  (List.range 8).any fun row => (List.range 8).any fun col =>
    let r : Int := row
    let c : Int := col
    is_piece_at g r c &&
      (let piece := get_piece_at g r c
       decide (piece.color = by_color) &&
        (let g' := { g with current_player := by_color }
         let moves := if piece.type = PieceType.KING then
             get_king_moves_no_castling g' ⟨r, c⟩
           else gen g' ⟨r, c⟩
         moves.any fun m => decide (m = pos)))

/-- The per-piece-type dispatch of chess.c get_possible_moves, without the
KING arm.  In C, is_square_attacked reaches get_possible_moves only for
non-king pieces (kings are special-cased to get_king_moves_no_castling), so
the mutual recursion get_king_moves → is_square_attacked → get_possible_moves
→ get_king_moves never actually cycles; this definition is that acyclic
slice, and is_square_attacked_eq below proves the two formulations agree. -/
def dispatch_moves_no_king (g : ChessGame) (frm : Position) : List Position :=
  if !(is_valid_position frm.row frm.col) || !(is_piece_at g frm.row frm.col) then []
  else
    let piece := get_piece_at g frm.row frm.col
    if ¬ (piece.color = g.current_player) then []
    else match piece.type with
      | PieceType.PAWN => get_pawn_moves g frm
      | PieceType.ROOK => get_rook_moves g frm
      | PieceType.KNIGHT => get_knight_moves g frm
      | PieceType.BISHOP => get_bishop_moves g frm
      | PieceType.QUEEN => get_queen_moves g frm
      | _ => []

/-- is_square_attacked as used from inside get_king_moves (the acyclic
slice; proved equal to the direct transcription in is_square_attacked_eq). -/
def is_square_attacked_basic (g : ChessGame) (pos : Position) (by_color : Color) : Bool :=
  is_square_attacked_with dispatch_moves_no_king g pos by_color

/-- chess.c get_king_moves: the 8 adjacent squares plus the castling
destinations, each guarded exactly as in the source: not currently in check
(the cached in_check flag), king and relevant rook unmoved, king on its home
square, the squares strictly between king and rook empty, and the transit /
destination squares not attacked by the opponent. -/
def get_king_moves (g : ChessGame) (frm : Position) : List Position :=
  let base := get_king_moves_no_castling g frm
  let piece := get_piece_at g frm.row frm.col
  if !(g.inCheck piece.color) then
    if piece.color = Color.WHITE then
      base ++
        (if !g.white_king_moved && !g.white_rook_h_moved &&
            decide (frm.row = 7 ∧ frm.col = 4) &&
            !(is_piece_at g 7 5) && !(is_piece_at g 7 6) &&
            !(is_square_attacked_basic g ⟨7, 5⟩ Color.BLACK) &&
            !(is_square_attacked_basic g ⟨7, 6⟩ Color.BLACK) then
          [⟨7, 6⟩]
        else []) ++
        (if !g.white_king_moved && !g.white_rook_a_moved &&
            decide (frm.row = 7 ∧ frm.col = 4) &&
            !(is_piece_at g 7 1) && !(is_piece_at g 7 2) && !(is_piece_at g 7 3) &&
            !(is_square_attacked_basic g ⟨7, 2⟩ Color.BLACK) &&
            !(is_square_attacked_basic g ⟨7, 3⟩ Color.BLACK) then
          [⟨7, 2⟩]
        else [])
    else
      base ++
        (if !g.black_king_moved && !g.black_rook_h_moved &&
            decide (frm.row = 0 ∧ frm.col = 4) &&
            !(is_piece_at g 0 5) && !(is_piece_at g 0 6) &&
            !(is_square_attacked_basic g ⟨0, 5⟩ Color.WHITE) &&
            !(is_square_attacked_basic g ⟨0, 6⟩ Color.WHITE) then
          [⟨0, 6⟩]
        else []) ++
        (if !g.black_king_moved && !g.black_rook_a_moved &&
            decide (frm.row = 0 ∧ frm.col = 4) &&
            !(is_piece_at g 0 1) && !(is_piece_at g 0 2) && !(is_piece_at g 0 3) &&
            !(is_square_attacked_basic g ⟨0, 2⟩ Color.WHITE) &&
            !(is_square_attacked_basic g ⟨0, 3⟩ Color.WHITE) then
          [⟨0, 2⟩]
        else [])
  else base

/-- chess.c get_possible_moves: validates the origin square and ownership,
then dispatches on the piece type. -/
def get_possible_moves (g : ChessGame) (frm : Position) : List Position :=
  if !(is_valid_position frm.row frm.col) || !(is_piece_at g frm.row frm.col) then []
  else
    let piece := get_piece_at g frm.row frm.col
    if ¬ (piece.color = g.current_player) then []
    else match piece.type with
      | PieceType.PAWN => get_pawn_moves g frm
      | PieceType.ROOK => get_rook_moves g frm
      | PieceType.KNIGHT => get_knight_moves g frm
      | PieceType.BISHOP => get_bishop_moves g frm
      | PieceType.QUEEN => get_queen_moves g frm
      | PieceType.KING => get_king_moves g frm
      | PieceType.EMPTY => []

/-- chess.c is_square_attacked, transcribed directly (non-king pieces go
through get_possible_moves, kings through get_king_moves_no_castling). -/
def is_square_attacked (g : ChessGame) (pos : Position) (by_color : Color) : Bool :=
  is_square_attacked_with get_possible_moves g pos by_color

/-- chess.c is_in_check: is the cached king square of `color` attacked by the
opposite color. -/
def is_in_check (g : ChessGame) (color : Color) : Bool :=
  let king_pos := if color = Color.WHITE then g.white_king_pos else g.black_king_pos
  is_square_attacked g king_pos color.opp

/-- chess.c would_be_in_check_after_move.  The C function mutates the game in
place and restores it before returning; the embedding returns the check
result together with the state left behind by that mutate-then-restore
sequence (proved equal to the input state in the frame theorem below). -/
def would_be_in_check_after_move (g : ChessGame) (frm dest : Position) :
    Bool × ChessGame :=
  let moving_piece := get_piece_at g frm.row frm.col
  let captured_piece := get_piece_at g dest.row dest.col
  let g1 := set_piece_at g dest.row dest.col moving_piece
  let g2 := clear_position g1 frm.row frm.col
  let g3 := if moving_piece.type = PieceType.KING then
      (if moving_piece.color = Color.WHITE then { g2 with white_king_pos := dest }
       else { g2 with black_king_pos := dest })
    else g2
  let in_check := is_in_check g3 moving_piece.color
  let g4 := set_piece_at g3 frm.row frm.col moving_piece
  let g5 := set_piece_at g4 dest.row dest.col captured_piece
  let g6 := if moving_piece.type = PieceType.KING then
      (if moving_piece.color = Color.WHITE then { g5 with white_king_pos := frm }
       else { g5 with black_king_pos := frm })
    else g5
  (in_check, g6)

/-- chess.c is_valid_move: the destination is among the generated pseudo-legal
moves and the simulate-and-check filter reports no self-check. -/
def is_valid_move (g : ChessGame) (frm dest : Position) : Bool :=
  (get_possible_moves g frm).any (fun m => decide (m = dest)) &&
    !(would_be_in_check_after_move g frm dest).1

/-- chess.c is_promotion_move: a pawn moving to the opposing back rank. -/
def is_promotion_move (g : ChessGame) (frm dest : Position) : Bool :=
  let moving_piece := get_piece_at g frm.row frm.col
  if ¬ (moving_piece.type = PieceType.PAWN) then false
  else
    let promotion_row : Int := if moving_piece.color = Color.WHITE then 0 else 7
    decide (dest.row = promotion_row)

/-- chess.c is_valid_promotion_piece. -/
def is_valid_promotion_piece (piece_type : PieceType) : Bool :=
  decide (piece_type = PieceType.QUEEN ∨ piece_type = PieceType.ROOK ∨
    piece_type = PieceType.BISHOP ∨ piece_type = PieceType.KNIGHT)

/-- Append a captured piece to the capturing side's list, as make_move and
make_promotion_move do (white pieces go to black_captured and vice versa). -/
def record_capture (g : ChessGame) (captured_piece : Piece) : ChessGame :=
  if captured_piece.color = Color.WHITE then
    { g with black_captured := g.black_captured ++ [captured_piece] }
  else
    { g with white_captured := g.white_captured ++ [captured_piece] }

/-- The board-and-capture-list block of chess.c make_promotion_move: record
any captured piece, place the promoted piece at the destination, clear the
origin. -/
def mpm_board_stage (g : ChessGame) (frm dest : Position)
    (promotion_type : PieceType) : ChessGame :=
  let moving_piece := get_piece_at g frm.row frm.col
  let captured_piece := get_piece_at g dest.row dest.col
  let g1 := if ¬ (captured_piece.type = PieceType.EMPTY) then
      record_capture g captured_piece
    else g
  let promoted_piece : Piece := ⟨promotion_type, moving_piece.color⟩
  clear_position (set_piece_at g1 dest.row dest.col promoted_piece) frm.row frm.col

/-- chess.c make_promotion_move: validates, applies the relocation with the
promoted piece, resets the halfmove clock (a pawn move), updates the
fullmove number, clears the en-passant state, flips the player and
recomputes both check caches. -/
def make_promotion_move (g : ChessGame) (frm dest : Position)
    (promotion_type : PieceType) : Bool × ChessGame :=
  if ¬ (is_promotion_move g frm dest) then (false, g)
  else if ¬ (is_valid_promotion_piece promotion_type) then (false, g)
  else if ¬ (is_valid_move g frm dest) then (false, g)
  else
    let g3 := mpm_board_stage g frm dest promotion_type
    let g4 := { g3 with halfmove_clock := 0 }
    let g5 := if g4.current_player = Color.BLACK then
        { g4 with fullmove_number := g4.fullmove_number + 1 }
      else g4
    let g6 := { g5 with en_passant_available := false, en_passant_target := ⟨-1, -1⟩ }
    let g7 := { g6 with current_player := if g6.current_player = Color.WHITE then
        Color.BLACK else Color.WHITE }
    let g8 := { g7 with in_check_white := is_in_check g7 Color.WHITE,
                        in_check_black := is_in_check g7 Color.BLACK }
    (true, g8)

/-- The `moving_piece` local of chess.c make_move (read once, before any
mutation). -/
def mm_moving (g : ChessGame) (frm : Position) : Piece :=
  get_piece_at g frm.row frm.col

/-- The en-passant-capture test of chess.c make_move: a pawn arriving on
the recorded target square with an empty destination. -/
def mm_is_ep (g : ChessGame) (frm dest : Position) : Bool :=
  decide ((mm_moving g frm).type = PieceType.PAWN ∧ g.en_passant_available = true ∧
    dest.row = g.en_passant_target.row ∧ dest.col = g.en_passant_target.col ∧
    (get_piece_at g dest.row dest.col).type = PieceType.EMPTY)

/-- The `captured_pawn_row` local of make_move's en-passant branch. -/
def mm_captured_pawn_row (g : ChessGame) (frm : Position) (dest : Position) : Int :=
  if (mm_moving g frm).color = Color.WHITE then dest.row + 1 else dest.row - 1

/-- The effective `captured_piece` local of make_move after the en-passant
branch (the pawn behind the target square on an en-passant capture, else
whatever sits on the destination square). -/
def mm_captured (g : ChessGame) (frm dest : Position) : Piece :=
  if mm_is_ep g frm dest then
    get_piece_at g (mm_captured_pawn_row g frm dest) dest.col
  else get_piece_at g dest.row dest.col

/-- make_move statements up to the origin clear: remove the en-passant
victim, record the capture, place the mover on the destination, clear the
origin. -/
def mm_relocate_stage (g : ChessGame) (frm dest : Position) : ChessGame :=
  let gA := if mm_is_ep g frm dest then
      clear_position g (mm_captured_pawn_row g frm dest) dest.col
    else g
  let gB := if ¬ ((mm_captured g frm dest).type = PieceType.EMPTY) then
      record_capture gA (mm_captured g frm dest)
    else gA
  clear_position (set_piece_at gB dest.row dest.col (mm_moving g frm)) frm.row frm.col

/-- make_move's king block: on a two-file king displacement relocate the
corresponding rook and mark it moved, then update the cached king square
and the king-moved flag. -/
def mm_castle_stage (moving_piece : Piece) (frm dest : Position) (gD : ChessGame) :
    ChessGame :=
  if moving_piece.type = PieceType.KING then
    let gD1 := if (dest.col - frm.col).natAbs = 2 then
        (if moving_piece.color = Color.WHITE then
          (if dest.col = 6 then
            let rook := get_piece_at gD 7 7
            { clear_position (set_piece_at gD 7 5 rook) 7 7 with
                white_rook_h_moved := true }
          else if dest.col = 2 then
            let rook := get_piece_at gD 7 0
            { clear_position (set_piece_at gD 7 3 rook) 7 0 with
                white_rook_a_moved := true }
          else gD)
        else
          (if dest.col = 6 then
            let rook := get_piece_at gD 0 7
            { clear_position (set_piece_at gD 0 5 rook) 0 7 with
                black_rook_h_moved := true }
          else if dest.col = 2 then
            let rook := get_piece_at gD 0 0
            { clear_position (set_piece_at gD 0 3 rook) 0 0 with
                black_rook_a_moved := true }
          else gD))
      else gD
    if moving_piece.color = Color.WHITE then
      { gD1 with white_king_pos := dest, white_king_moved := true }
    else
      { gD1 with black_king_pos := dest, black_king_moved := true }
  else gD

/-- make_move's rook block: mark a rook leaving its home corner as moved. -/
def mm_rookflag_stage (moving_piece : Piece) (frm : Position) (gE : ChessGame) :
    ChessGame :=
  if moving_piece.type = PieceType.ROOK then
    if moving_piece.color = Color.WHITE then
      let gE1 := if frm.row = 7 ∧ frm.col = 0 then
          { gE with white_rook_a_moved := true } else gE
      if frm.row = 7 ∧ frm.col = 7 then
        { gE1 with white_rook_h_moved := true } else gE1
    else
      let gE1 := if frm.row = 0 ∧ frm.col = 0 then
          { gE with black_rook_a_moved := true } else gE
      if frm.row = 0 ∧ frm.col = 7 then
        { gE1 with black_rook_h_moved := true } else gE1
  else gE

/-- All board / capture-list / flag / king-square statements of make_move,
before the counter and en-passant bookkeeping. -/
def mm_board_stage (g : ChessGame) (frm dest : Position) : ChessGame :=
  mm_rookflag_stage (mm_moving g frm) frm
    (mm_castle_stage (mm_moving g frm) frm dest (mm_relocate_stage g frm dest))

/-- chess.c make_move.  `choice` models the result of the interactive
get_promotion_choice() prompt that the C code consults only on the
pawn-promotion branch; every other statement follows the source in order,
through the named stage functions above. -/
def make_move (choice : PieceType) (g : ChessGame) (frm dest : Position) :
    Bool × ChessGame :=
  if ¬ (is_valid_move g frm dest) then (false, g)
  else if is_promotion_move g frm dest then
    make_promotion_move g frm dest choice
  else
    let gF := mm_board_stage g frm dest
    let was_capture := ¬ ((mm_captured g frm dest).type = PieceType.EMPTY) ∨
      mm_is_ep g frm dest = true
    let was_pawn_move := (mm_moving g frm).type = PieceType.PAWN
    let gG := if was_pawn_move ∨ was_capture then
        { gF with halfmove_clock := 0 }
      else
        { gF with halfmove_clock := gF.halfmove_clock + 1 }
    let gH := if gG.current_player = Color.BLACK then
        { gG with fullmove_number := gG.fullmove_number + 1 }
      else gG
    let gI := { gH with en_passant_available := false, en_passant_target := ⟨-1, -1⟩ }
    let gJ := if (mm_moving g frm).type = PieceType.PAWN ∧
        (dest.row - frm.row).natAbs = 2 then
        { gI with en_passant_available := true,
                  en_passant_target := ⟨(frm.row + dest.row) / 2, dest.col⟩ }
      else gI
    let gK := { gJ with current_player := if gJ.current_player = Color.WHITE then
        Color.BLACK else Color.WHITE }
    let gL := { gK with in_check_white := is_in_check gK Color.WHITE,
                        in_check_black := is_in_check gK Color.BLACK }
    (true, gL)

/-- chess.c execute_move: an AI promotion move (is_promotion with a
predetermined non-EMPTY promotion piece) goes through make_promotion_move,
everything else through make_move.  `choice` models the interactive prompt
exactly as in make_move. -/
def execute_move (choice : PieceType) (g : ChessGame) (move : Move) :
    Bool × ChessGame :=
  if move.is_promotion && decide (move.promotion_piece ≠ PieceType.EMPTY) then
    make_promotion_move g move.frm move.dest move.promotion_piece
  else
    make_move choice g move.frm move.dest

/-- stockfish.c parse_move_string.  The C initializer lists only the first
six fields of Move, so is_promotion and promotion_piece are
zero-initialized (false and EMPTY); for a string of length at least 4 only
the first four characters are inspected. -/
def parse_move_string (move_str : List Char) : Move :=
  let dflt : Move := ⟨⟨-1, -1⟩, ⟨-1, -1⟩, ⟨PieceType.EMPTY, Color.WHITE⟩,
    false, false, false, false, PieceType.EMPTY⟩
  match move_str with
  | c0 :: c1 :: c2 :: c3 :: _ =>
    { dflt with
        frm := ⟨(56 : Int) - c1.toNat, (c0.toNat : Int) - 97⟩
        dest := ⟨(56 : Int) - c3.toNat, (c2.toNat : Int) - 97⟩ }
  | _ => dflt

/-- The character for decimal digit `n` (used for run lengths 1..8 and for
the decimal printer). -/
def digitChar (n : Nat) : Char := Char.ofNat (48 + n)

/-- Numeric value of a digit character, `c - '0'`. -/
def charDigitVal (c : Char) : Nat := c.toNat - 48

/-- C isdigit for the ASCII FEN alphabet. -/
def isDigitChar (c : Char) : Bool := decide ('0' ≤ c ∧ c ≤ '9')

/-- C isupper for the ASCII FEN alphabet. -/
def isUpperChar (c : Char) : Bool := decide ('A' ≤ c ∧ c ≤ 'Z')

/-- C tolower for the ASCII FEN alphabet. -/
def toLowerChar (c : Char) : Char :=
  if 'A' ≤ c ∧ c ≤ 'Z' then Char.ofNat (c.toNat + 32) else c

/-- chess.c char_to_piece_type: switch on tolower(c). -/
def char_to_piece_type (c : Char) : PieceType :=
  let lc := toLowerChar c
  if lc = 'p' then PieceType.PAWN
  else if lc = 'r' then PieceType.ROOK
  else if lc = 'n' then PieceType.KNIGHT
  else if lc = 'b' then PieceType.BISHOP
  else if lc = 'q' then PieceType.QUEEN
  else if lc = 'k' then PieceType.KING
  else PieceType.EMPTY

/-- stockfish.c piece_to_fen_char: uppercase symbol for white, +32 for
black; '1' for an empty square (never reached from board_to_fen, whose
run-length loop only passes occupied squares). -/
def piece_to_fen_char (piece : Piece) : Char :=
  if piece.type = PieceType.EMPTY then '1'
  else
    let c : Char := match piece.type with
      | PieceType.PAWN => 'P'
      | PieceType.ROOK => 'R'
      | PieceType.KNIGHT => 'N'
      | PieceType.BISHOP => 'B'
      | PieceType.QUEEN => 'Q'
      | PieceType.KING => 'K'
      | PieceType.EMPTY => ' '
    if piece.color = Color.WHITE then c else Char.ofNat (c.toNat + 32)

/-- The run-length encoding loop of board_to_fen for one rank: `ec` is the
pending empty-square count, `col` the next column, `fuel` the remaining
columns (the C loop body runs once per column, flushing the pending count
before each piece character and once more after the last column). -/
def encodeRankAux (g : ChessGame) (row : Int) : Nat → Int → Nat → List Char
  | ec, _, 0 => if ec > 0 then [digitChar ec] else []
  | ec, col, fuel + 1 =>
    let piece := g.board row col
    if piece.type = PieceType.EMPTY then encodeRankAux g row (ec + 1) (col + 1) fuel
    else
      (if ec > 0 then [digitChar ec] else []) ++
        piece_to_fen_char piece :: encodeRankAux g row 0 (col + 1) fuel

/-- One rank of the FEN board field. -/
def encodeRank (g : ChessGame) (row : Int) : List Char :=
  encodeRankAux g row 0 0 8

/-- The board field of board_to_fen: eight ranks separated by slashes. -/
def boardFen (g : ChessGame) : List Char :=
  encodeRank g 0 ++ '/' :: (encodeRank g 1 ++ '/' :: (encodeRank g 2 ++ '/' ::
    (encodeRank g 3 ++ '/' :: (encodeRank g 4 ++ '/' :: (encodeRank g 5 ++ '/' ::
      (encodeRank g 6 ++ '/' :: encodeRank g 7))))))

/-- The castling field of board_to_fen: K/Q/k/q letters gated by the six
moved flags, "-" when none apply. -/
def castlingFen (g : ChessGame) : List Char :=
  let s :=
    (if !g.white_king_moved then
      (if !g.white_rook_h_moved then ['K'] else []) ++
        (if !g.white_rook_a_moved then ['Q'] else [])
    else []) ++
    (if !g.black_king_moved then
      (if !g.black_rook_h_moved then ['k'] else []) ++
        (if !g.black_rook_a_moved then ['q'] else [])
    else [])
  if s = [] then ['-'] else s

/-- The en-passant field of board_to_fen: the algebraic target square when
available and in range, "-" otherwise. -/
def epFen (g : ChessGame) : List Char :=
  if g.en_passant_available ∧ 0 ≤ g.en_passant_target.row ∧ g.en_passant_target.row < 8 ∧
      0 ≤ g.en_passant_target.col ∧ g.en_passant_target.col < 8 then
    [Char.ofNat (97 + g.en_passant_target.col.toNat),
     Char.ofNat (56 - g.en_passant_target.row.toNat)]
  else ['-']

/-- Decimal digits of a positive number, most significant first (the `fuel`
argument only bounds the recursion; `n ≤ fuel` suffices). -/
def natDecAux : Nat → Nat → List Char
  | 0, _ => []
  | fuel + 1, n => if n = 0 then [] else natDecAux fuel (n / 10) ++ [digitChar (n % 10)]

/-- Decimal rendering of a natural number. -/
def natDec (n : Nat) : List Char := if n = 0 then ['0'] else natDecAux n n

/-- sprintf "%d" of a C int. -/
def intDec (n : Int) : List Char :=
  if n < 0 then '-' :: natDec (-n).toNat else natDec n.toNat

/-- stockfish.c board_to_fen: the six space-separated FEN fields. -/
def board_to_fen (g : ChessGame) : List Char :=
  boardFen g ++ ' ' :: (if g.current_player = Color.WHITE then 'w' else 'b') :: ' ' ::
    (castlingFen g ++ ' ' :: (epFen g ++ ' ' ::
      (intDec g.halfmove_clock ++ ' ' :: intDec g.fullmove_number)))

/-- The board characters accepted by validate_fen_string (strchr set). -/
def fenPieceChars : List Char := ['r', 'n', 'b', 'q', 'k', 'p', 'R', 'N', 'B', 'Q', 'K', 'P']

/-- The scanning loop of chess.c validate_fen_string: counts slashes and
board squares until the first space (or the end), failing on a bad run
length or an alien character. -/
def validateAux : List Char → Nat → Nat → Option (Nat × Nat × List Char)
  | [], s, b => some (s, b, [])
  | c :: cs, s, b =>
    if c = ' ' then some (s, b, c :: cs)
    else if c = '/' then validateAux cs (s + 1) b
    else if isDigitChar c then
      let d := charDigitVal c
      if 1 ≤ d ∧ d ≤ 8 then validateAux cs s (b + d) else none
    else if c ∈ fenPieceChars then validateAux cs s (b + 1)
    else none

/-- chess.c validate_fen_string: 7 slashes, 64 squares, then a space. -/
def validate_fen_string (fen : List Char) : Bool :=
  if fen = [] then false
  else
    match validateAux fen 0 0 with
    | none => false
    | some (s, b, rest) =>
      decide (s = 7 ∧ b = 64) &&
        (match rest with
         | ' ' :: _ => true
         | _ => false)

/-- The board-parsing loop of setup_board_from_fen: consumes characters
until a space (or the end, or row overflow), placing pieces and recording
king positions as it goes.  Returns the board, both king trackers, and the
unconsumed suffix. -/
def parseBoardAux : List Char → Int → Int → (Int → Int → Piece) → Position → Position →
    ((Int → Int → Piece) × Position × Position × List Char)
  | [], _, _, b, wk, bk => (b, wk, bk, [])
  | c :: cs, row, col, b, wk, bk =>
    if c = ' ' ∨ ¬ (row < 8) then (b, wk, bk, c :: cs)
    else if c = '/' then parseBoardAux cs (row + 1) 0 b wk bk
    else if isDigitChar c then parseBoardAux cs row (col + charDigitVal c) b wk bk
    else
      let piece_type := char_to_piece_type (toLowerChar c)
      let piece_color := if isUpperChar c then Color.WHITE else Color.BLACK
      if row < 8 ∧ col < 8 then
        let b' := boardSet b row col ⟨piece_type, piece_color⟩
        let wk' := if piece_type = PieceType.KING ∧ piece_color = Color.WHITE then
            (⟨row, col⟩ : Position) else wk
        let bk' := if piece_type = PieceType.KING ∧ piece_color = Color.BLACK then
            (⟨row, col⟩ : Position) else bk
        parseBoardAux cs row (col + 1) b' wk' bk'
      else parseBoardAux cs row (col + 1) b wk bk

/-- `if (*ptr == ' ') ptr++`. -/
def skipOneSpace : List Char → List Char
  | ' ' :: cs => cs
  | cs => cs

/-- The active-color parse of setup_board_from_fen (defaults to white). -/
def parseColor : List Char → Color
  | 'w' :: _ => Color.WHITE
  | 'W' :: _ => Color.WHITE
  | 'b' :: _ => Color.BLACK
  | 'B' :: _ => Color.BLACK
  | _ => Color.WHITE

/-- The castling-rights loop of setup_board_from_fen: switch on each
character until a space, clearing moved flags for K/Q/k/q. -/
def parseCastlingAux : List Char → ChessGame → ChessGame × List Char
  | [], g => (g, [])
  | c :: cs, g =>
    if c = ' ' then (g, c :: cs)
    else
      parseCastlingAux cs
        (if c = 'K' then { g with white_king_moved := false, white_rook_h_moved := false }
         else if c = 'Q' then { g with white_king_moved := false, white_rook_a_moved := false }
         else if c = 'k' then { g with black_king_moved := false, black_rook_h_moved := false }
         else if c = 'q' then { g with black_king_moved := false, black_rook_a_moved := false }
         else g)

/-- The en-passant-square parse of setup_board_from_fen: a file letter
followed by a rank digit sets the target; anything else leaves the cleared
default.  Returns availability, target, and the suffix at the C pointer
position reached by the nested advances. -/
def parseEP : List Char → Bool × Position × List Char
  | [] => (false, ⟨-1, -1⟩, [])
  | c :: cs =>
    if ¬ (c = '-') ∧ ¬ (c = ' ') then
      if 'a' ≤ c ∧ c ≤ 'h' then
        match cs with
        | c2 :: cs2 =>
          if '1' ≤ c2 ∧ c2 ≤ '8' then
            (true, ⟨(56 : Int) - c2.toNat, (c.toNat : Int) - 97⟩, cs2)
          else (false, ⟨-1, -1⟩, cs)
        | [] => (false, ⟨-1, -1⟩, [])
      else (false, ⟨-1, -1⟩, c :: cs)
    else (false, ⟨-1, -1⟩, c :: cs)

/-- The atoi-then-skip-digits step used for the two counters: accumulate
leading digits, return the value and the rest. -/
def parseNatAux : List Char → Nat → Nat × List Char
  | [], acc => (acc, [])
  | c :: cs, acc =>
    if isDigitChar c then parseNatAux cs (acc * 10 + charDigitVal c) else (acc, c :: cs)

/-- Number of pieces of a given type and color on the board. -/
def countPieces (g : ChessGame) (color : Color) (t : PieceType) : Nat :=
  (List.range 8).foldl
    (fun a row => (List.range 8).foldl
      (fun a2 col =>
        if g.board (row : Int) (col : Int) = ⟨t, color⟩ then a2 + 1 else a2) a) 0

/-- Starting complement per piece type (both colors). -/
def startingCount : PieceType → Nat
  | PieceType.PAWN => 8
  | PieceType.ROOK => 2
  | PieceType.KNIGHT => 2
  | PieceType.BISHOP => 2
  | PieceType.QUEEN => 1
  | PieceType.KING => 1
  | PieceType.EMPTY => 0

/-- The pieces of `color` missing from the board relative to the starting
complement, in the PAWN..KING order of calculate_captured_pieces. -/
def capturedList (g : ChessGame) (color : Color) : List Piece :=
  ([PieceType.PAWN, PieceType.ROOK, PieceType.KNIGHT, PieceType.BISHOP,
    PieceType.QUEEN, PieceType.KING]).flatMap fun t =>
    List.replicate (startingCount t - countPieces g color t) (⟨t, color⟩ : Piece)

/-- chess.c calculate_captured_pieces: rebuild both capture lists by
diffing the board against the starting complement (missing white pieces
were captured by black and vice versa). -/
def calculate_captured_pieces (g : ChessGame) : ChessGame :=
  { g with black_captured := capturedList g Color.WHITE,
           white_captured := capturedList g Color.BLACK }

/-- chess.c setup_board_from_fen.  Mirrors the source phase by phase:
validate; clear board and king trackers; parse board (tracking kings);
active color; castling flags (all "moved" unless a letter re-enables);
en-passant square; the two counters; recompute the capture lists; fail if
either king is missing (note: this failure happens after the state has
already been overwritten); recompute both check caches. -/
def setup_board_from_fen (g : ChessGame) (fen : List Char) : Bool × ChessGame :=
  if ¬ (validate_fen_string fen) then (false, g)
  else
    let g0 := { g with white_king_pos := (⟨-1, -1⟩ : Position),
                       black_king_pos := (⟨-1, -1⟩ : Position),
                       board := fun _ _ => emptyPiece }
    let pr := parseBoardAux fen 0 0 g0.board g0.white_king_pos g0.black_king_pos
    let g1 := { g0 with board := pr.1, white_king_pos := pr.2.1, black_king_pos := pr.2.2.1 }
    let rest2 := skipOneSpace pr.2.2.2
    let g2 := { g1 with current_player := parseColor rest2 }
    let rest3 := skipOneSpace (rest2.dropWhile fun c => ¬ (c = ' '))
    let g3 := { g2 with
                white_king_moved := true, black_king_moved := true,
                white_rook_a_moved := true, white_rook_h_moved := true,
                black_rook_a_moved := true, black_rook_h_moved := true }
    let pc := parseCastlingAux rest3 g3
    let g4 := pc.1
    let rest5 := pc.2.dropWhile (fun c => c = ' ')
    let pe := parseEP rest5
    let g5 := { g4 with en_passant_available := pe.1, en_passant_target := pe.2.1 }
    let rest6 := pe.2.2.dropWhile fun c => ¬ (c = ' ')
    let rest7 := rest6.dropWhile (fun c => c = ' ')
    let hmP : Int × List Char :=
      match rest7 with
      | c :: cs =>
        if isDigitChar c then
          let p := parseNatAux (c :: cs) 0
          ((p.1 : Int), p.2)
        else (0, c :: cs)
      | [] => (0, [])
    let g6 := { g5 with halfmove_clock := hmP.1 }
    let rest9 := hmP.2.dropWhile (fun c => c = ' ')
    let fmP : Int × List Char :=
      match rest9 with
      | c :: cs =>
        if isDigitChar c then
          let p := parseNatAux (c :: cs) 0
          ((p.1 : Int), p.2)
        else (1, c :: cs)
      | [] => (1, [])
    let g7 := { g6 with fullmove_number := fmP.1 }
    let g8 := calculate_captured_pieces g7
    if g8.white_king_pos.row = -1 ∨ g8.black_king_pos.row = -1 then (false, g8)
    else
      (true, { g8 with in_check_white := is_in_check g8 Color.WHITE,
                       in_check_black := is_in_check g8 Color.BLACK })

/-- main.c count_available_undos: number of undoable move pairs in the FEN
log (each line one serialized position). -/
def count_available_undos (log : List (List Char)) : Nat :=
  if log.length > 2 then (log.length - 1) / 2 else 0

/-- main.c truncate_fen_log_by_moves: drop the last `2 * move_pairs` lines,
but only when more than that many lines exist; otherwise the file is left
unchanged. -/
def truncate_fen_log_by_moves (log : List (List Char)) (move_pairs_to_undo : Nat) :
    List (List Char) :=
  let lines_to_remove := move_pairs_to_undo * 2
  if log.length > lines_to_remove then log.take (log.length - lines_to_remove)
  else log

/-- main.c restore_from_fen_log applied to one already-extracted last line
(empty line or missing file reports failure and leaves the game alone). -/
def restoreEntry (g : ChessGame) (line : List Char) : Bool × ChessGame :=
  if line = [] then (false, g) else setup_board_from_fen g line

/-- main.c restore_from_fen_log: reload the game from the log's last line. -/
def restore_from_fen_log (g : ChessGame) (log : List (List Char)) : Bool × ChessGame :=
  restoreEntry g (log.getLastD [])


/-- Board of the en-passant discovered-check position: White Kh5 and Pe5,
Black Ra5, pd5 (having just double-stepped), Ke8. -/
def c1Board : Int → Int → Piece := fun r c =>
  if r = 3 ∧ c = 7 then ⟨PieceType.KING, Color.WHITE⟩
  else if r = 3 ∧ c = 4 then ⟨PieceType.PAWN, Color.WHITE⟩
  else if r = 3 ∧ c = 3 then ⟨PieceType.PAWN, Color.BLACK⟩
  else if r = 3 ∧ c = 0 then ⟨PieceType.ROOK, Color.BLACK⟩
  else if r = 0 ∧ c = 4 then ⟨PieceType.KING, Color.BLACK⟩
  else emptyPiece

/-- The en-passant discovered-check position, white to move, en-passant
target d6 recorded after black's d7-d5. -/
def gameC1 : ChessGame :=
  { board := c1Board
    current_player := Color.WHITE
    white_captured := []
    black_captured := []
    white_king_moved := true
    black_king_moved := true
    white_rook_a_moved := true
    white_rook_h_moved := true
    black_rook_a_moved := true
    black_rook_h_moved := true
    white_king_pos := ⟨3, 7⟩
    black_king_pos := ⟨0, 4⟩
    in_check_white := false
    in_check_black := false
    halfmove_clock := 0
    fullmove_number := 10
    en_passant_target := ⟨2, 3⟩
    en_passant_available := true }

/-- Game states reachable from the standard initial position by moves the
engine accepts (make_move returning true; promotions are reached through
make_move's delegation, with `choice` standing for the interactive prompt). -/
inductive Reachable : ChessGame → Prop where
  | init : Reachable init_board
  | step : ∀ (choice : PieceType) (g : ChessGame) (frm dest : Position),
      Reachable g → (make_move choice g frm dest).1 = true →
      Reachable (make_move choice g frm dest).2

/-- Fold a list of (from, to) moves through make_move, stopping (with
false) at the first rejected move. -/
def playAll : List (Position × Position) → ChessGame → Bool × ChessGame
  | [], g => (true, g)
  | m :: ms, g =>
    let r := make_move PieceType.QUEEN g m.1 m.2
    if r.1 then playAll ms r.2 else (false, g)

/-- A legal 14-half-move game: white walks its king to h5 while black
brings a rook to a5; black plays d7-d5; white answers with the en-passant
capture e5xd6, which the legality filter wrongly accepts although it
uncovers the rook's attack on h5; black then captures the white king. -/
def kcMoves : List (Position × Position) :=
  [ (⟨6, 4⟩, ⟨4, 4⟩), (⟨1, 0⟩, ⟨3, 0⟩), (⟨4, 4⟩, ⟨3, 4⟩), (⟨0, 0⟩, ⟨2, 0⟩),
    (⟨7, 4⟩, ⟨6, 4⟩), (⟨3, 0⟩, ⟨4, 0⟩), (⟨6, 4⟩, ⟨5, 5⟩), (⟨2, 0⟩, ⟨3, 0⟩),
    (⟨5, 5⟩, ⟨4, 6⟩), (⟨1, 7⟩, ⟨2, 7⟩), (⟨4, 6⟩, ⟨3, 7⟩), (⟨1, 3⟩, ⟨3, 3⟩),
    (⟨3, 4⟩, ⟨2, 3⟩), (⟨3, 0⟩, ⟨3, 7⟩) ]

/-- The position reached by kcMoves: no white king remains on the board. -/
def kingCapturedGame : ChessGame := (playAll kcMoves init_board).2

/-- Whether a king of the given color is on the board. -/
def hasKing (g : ChessGame) (color : Color) : Bool :=
  (List.range 8).any fun r => (List.range 8).any fun c =>
    decide (g.board (r : Int) (c : Int) = ⟨PieceType.KING, color⟩)

/-- A syntactically valid FEN describing a position with no kings. -/
def fenNoKings : List Char := ("8/8/8/8/8/8/8/8 w - - 0 1").toList

/-- The standard starting position, white to move, as a FEN line. -/
def fenStart : List Char :=
  ("rnbqkbnr/pppppppp/8/8/8/8/PPPPPPPP/RNBQKBNR w KQkq - 0 1").toList

/-- The standard starting array with black to move, as a FEN line. -/
def fenStartBlack : List Char :=
  ("rnbqkbnr/pppppppp/8/8/8/8/PPPPPPPP/RNBQKBNR b KQkq - 0 1").toList

/-- A two-entry history log whose entries decode to distinct positions. -/
def undoLog2 : List (List Char) := [fenStart, fenStartBlack]

/-- Well-formedness facts maintained by every state the engine reaches from
init_board: empty squares are stored as the canonical empty piece (the C
code always writes (Piece)\x7bEMPTY, WHITE\x7d), the out-of-bounds cells of the
board function stay canonical, an available en-passant target is in range,
an unavailable one is (-1,-1), and the two counters are nonnegative. -/
def NormBoard (b : Int → Int → Piece) : Prop :=
  (∀ r c, (b r c).type = PieceType.EMPTY → b r c = emptyPiece) ∧
  (∀ r c, is_valid_position r c = false → b r c = emptyPiece)

/-- See the WF doc comment below. -/
def WF (g : ChessGame) : Prop :=
  NormBoard g.board ∧
  (g.en_passant_available = true →
    0 ≤ g.en_passant_target.row ∧ g.en_passant_target.row < 8 ∧
    0 ≤ g.en_passant_target.col ∧ g.en_passant_target.col < 8) ∧
  (g.en_passant_available = false → g.en_passant_target = (⟨-1, -1⟩ : Position)) ∧
  0 ≤ g.halfmove_clock ∧ 0 ≤ g.fullmove_number


/-- Congruence for List.any under a pointwise-on-members equality. -/
theorem list_any_congr {α : Type} {l : List α} {f g : α → Bool}
    (h : ∀ a ∈ l, f a = g a) : l.any f = l.any g := by
  induction l with
  | nil => rfl
  | cons x xs ih =>
    simp only [List.any_cons]
    rw [h x (by simp), ih fun a ha => h a (by simp [ha])]

/-- The two renderings of the attack scan agree: inside the scan the
generated piece is never a king on the get_possible_moves path, and for
non-king pieces get_possible_moves is exactly the dispatch (the scan only
generates for squares that hold a piece of the scanning color, and it sets
current_player to that color first). -/
theorem is_square_attacked_eq (g : ChessGame) (pos : Position) (by_color : Color) :
    is_square_attacked g pos by_color = is_square_attacked_basic g pos by_color := by
  unfold is_square_attacked is_square_attacked_basic is_square_attacked_with
  refine list_any_congr fun row hrow => ?_
  refine list_any_congr fun col hcol => ?_
  simp only []
  rcases hpa : is_piece_at g (row : Int) (col : Int) with _ | _
  · rfl
  · rcases hpc : decide ((get_piece_at g (row : Int) (col : Int)).color = by_color) with _ | _
    · simp
    · simp only [Bool.true_and]
      rcases hkt : decide ((get_piece_at g (row : Int) (col : Int)).type = PieceType.KING)
        with _ | _
      · simp only [decide_eq_false_iff_not] at hkt
        simp only [if_neg hkt]
        have hdisp : get_possible_moves { g with current_player := by_color } ⟨(row : Int), (col : Int)⟩ =
            dispatch_moves_no_king { g with current_player := by_color } ⟨(row : Int), (col : Int)⟩ := by
          unfold get_possible_moves dispatch_moves_no_king
          simp only [is_piece_at, get_piece_at] at *
          rcases h : (g.board (row : Int) (col : Int)).type <;> simp_all
        rw [hdisp]
      · simp only [decide_eq_true_eq] at hkt
        simp [hkt]

/-- Four-store restore pattern of the legality filter: write the moving
piece at the destination, clear the origin, rewrite the moving piece at the
origin, rewrite the original destination piece at the destination — the
composite is the identity on the board. -/
theorem boardSet_restore (b : Int → Int → Piece) (fr fc tr tc : Int) :
    boardSet (boardSet (boardSet (boardSet b tr tc (b fr fc)) fr fc emptyPiece)
      fr fc (b fr fc)) tr tc (b tr tc) = b := by
  funext r c
  simp only [boardSet]
  by_cases h1 : r = tr ∧ c = tc
  · obtain ⟨rfl, rfl⟩ := h1
    simp
  · rw [if_neg h1]
    by_cases h2 : r = fr ∧ c = fc
    · obtain ⟨rfl, rfl⟩ := h2
      simp
    · rw [if_neg h2, if_neg h2, if_neg h1]

/-- C8: for every game state whose cached king squares satisfy the data
model's invariant at the origin square (if the moved piece is a king, its
cache points to the origin), and every pair of in-bounds squares, the
simulate-and-revert filter would_be_in_check_after_move hands back a state
equal to the input state field by field: the moved piece, any captured
piece, and the cached king square are all restored, whatever the check
result was. -/
theorem C8_filter_restores_state (g : ChessGame) (frm dest : Position)
    (hf : is_valid_position frm.row frm.col = true)
    (ht : is_valid_position dest.row dest.col = true)
    (hcache : (get_piece_at g frm.row frm.col).type = PieceType.KING →
      (if (get_piece_at g frm.row frm.col).color = Color.WHITE then g.white_king_pos
       else g.black_king_pos) = frm) :
    (would_be_in_check_after_move g frm dest).2 = g := by
  obtain ⟨b, cp, wcap, bcap, wkm, bkm, wram, wrhm, bram, brhm, wkp, bkp, icw, icb,
    hc, fn, ept, epa⟩ := g
  simp only [get_piece_at] at hcache
  unfold would_be_in_check_after_move
  simp only [set_piece_at, clear_position, get_piece_at]
  by_cases hk : (b frm.row frm.col).type = PieceType.KING
  · by_cases hcol : (b frm.row frm.col).color = Color.WHITE
    · have hwk : wkp = frm := by simpa [hcol] using hcache hk
      simp [hk, hcol, boardSet_restore, hwk]
    · have hbk : bkp = frm := by simpa [hcol] using hcache hk
      simp [hk, hcol, boardSet_restore, hbk]
  · simp [hk, boardSet_restore]

/-- Witness for C8 at a concrete input (initial position, e2 to e4). -/
theorem C8_filter_restores_state_witness :
    is_valid_position 6 4 = true ∧ is_valid_position 4 4 = true ∧
    (would_be_in_check_after_move init_board ⟨6, 4⟩ ⟨4, 4⟩).2 = init_board :=
  ⟨by decide, by decide,
    C8_filter_restores_state init_board ⟨6, 4⟩ ⟨4, 4⟩ (by decide) (by decide)
      (fun h => absurd h (by decide))⟩

/-- C9: parse_move_string zero-initializes the promotion fields of Move (the
C initializer lists only the first six fields) and never inspects a fifth
character, so the parsed move always carries is_promotion = false and
promotion_piece = EMPTY, and execute_move on such a move always takes the
make_move branch, never the predetermined-promotion branch. -/
theorem C9_parse_move_no_promotion :
    ∀ (move_str : List Char) (choice : PieceType) (g : ChessGame),
      (parse_move_string move_str).is_promotion = false ∧
      (parse_move_string move_str).promotion_piece = PieceType.EMPTY ∧
      execute_move choice g (parse_move_string move_str) =
        make_move choice g (parse_move_string move_str).frm
          (parse_move_string move_str).dest := by
  intro s choice g
  rcases s with _ | ⟨c0, _ | ⟨c1, _ | ⟨c2, _ | ⟨c3, rest⟩⟩⟩⟩ <;> exact ⟨rfl, rfl, rfl⟩

/-- C10: in the initial position the empty square e3 directly in front of
the white pawn on e2 is reported as attacked by white, because the attack
scan reuses full pawn move generation, which includes the non-capturing
forward pushes. -/
theorem C10_pawn_push_counts_as_attack :
    (init_board.board 5 4).type = PieceType.EMPTY ∧
    init_board.board 6 4 = ⟨PieceType.PAWN, Color.WHITE⟩ ∧
    is_square_attacked init_board ⟨5, 4⟩ Color.WHITE = true :=
  ⟨by decide, by decide, by decide⟩

/-- C2 counterexample: a well-formed FEN with no kings is rejected by
setup_board_from_fen, but the game state has been overwritten by the time
the missing-king check runs — the prior state is not left untouched. -/
theorem C2_counterexample :
    (setup_board_from_fen init_board fenNoKings).1 = false ∧
    ¬ ((setup_board_from_fen init_board fenNoKings).2 = init_board) := by
  constructor
  · decide
  · intro h
    have h0 : (setup_board_from_fen init_board fenNoKings).2.board 0 0 =
        init_board.board 0 0 := by rw [h]
    have h1 : (setup_board_from_fen init_board fenNoKings).2.board 0 0 = emptyPiece := by
      decide
    have h2 : init_board.board 0 0 = ⟨PieceType.ROOK, Color.BLACK⟩ := by decide
    rw [h1, h2] at h0
    exact absurd h0 (by decide)

/-- C2 amended: when the input string fails format validation
(validate_fen_string), setup_board_from_fen rejects it before touching the
game, leaving the prior state untouched; the missing-king rejection, by
contrast, happens only after the state has been overwritten (see the
counterexample). -/
theorem C2_amended_malformed_leaves_state (g : ChessGame) (fen : List Char)
    (h : validate_fen_string fen = false) :
    setup_board_from_fen g fen = (false, g) := by
  unfold setup_board_from_fen
  simp [h]

/-- Witness for the amended C2 at a concrete malformed string. -/
theorem C2_amended_malformed_leaves_state_witness :
    validate_fen_string (("x").toList) = false ∧
    setup_board_from_fen init_board (("x").toList) = (false, init_board) :=
  ⟨by decide, C2_amended_malformed_leaves_state init_board (("x").toList) (by decide)⟩

theorem getLastD_take {α : Type} (l : List α) (d : α) (n : Nat) (h1 : 0 < n)
    (h2 : n ≤ l.length) : (l.take n).getLastD d = l.getD (n - 1) d := by
  have hlen : (l.take n).length = n := by
    rw [List.length_take]
    omega
  rw [List.getLastD_eq_getLast?, List.getLast?_eq_getElem?, hlen, List.getElem?_take,
    if_pos (by omega), List.getD_eq_getElem?_getD]

/-- C7 counterexample: a two-entry log (L = 2) undone by one move pair
(2k = 2 ≥ L).  The truncation is skipped (the guard requires strictly more
lines than are being removed), so the restore reloads the newest entry,
whose decoded position differs from entry zero — it has black to move —
refuting the claim that the restore is clamped to the starting position. -/
theorem C7_counterexample :
    undoLog2.length ≤ 2 * 1 ∧
    (restore_from_fen_log init_board (truncate_fen_log_by_moves undoLog2 1)).1 = true ∧
    (restore_from_fen_log init_board (truncate_fen_log_by_moves undoLog2 1)).2.current_player
      = Color.BLACK ∧
    (setup_board_from_fen init_board (undoLog2.getD 0 [])).2.current_player = Color.WHITE :=
  ⟨by decide, by decide, by decide, by decide⟩

/-- C7 amended: undoing k move pairs restores the position of log entry
L-1-2k when 2k < L; when 2k ≥ L the truncation is skipped entirely, so the
restore reloads the newest entry (L-1) — the position is left unchanged
rather than clamped to the starting position.  In both cases the entry read
is at an in-range index, never out of bounds. -/
theorem C7_amended_undo_restores_entry (g : ChessGame) (log : List (List Char))
    (k : Nat) (hlog : log ≠ []) :
    restore_from_fen_log g (truncate_fen_log_by_moves log k) =
      restoreEntry g (log.getD
        (if log.length > k * 2 then log.length - k * 2 - 1 else log.length - 1) []) := by
  unfold restore_from_fen_log truncate_fen_log_by_moves
  have hpos : 0 < log.length := List.length_pos.mpr hlog
  by_cases h : log.length > k * 2
  · rw [if_pos h, if_pos h]
    congr 1
    exact getLastD_take log [] (log.length - k * 2) (by omega) (by omega)
  · rw [if_neg h, if_neg h]
    congr 1
    have h3 := getLastD_take log [] log.length hpos (Nat.le_refl _)
    rwa [List.take_length] at h3

/-- Witness for the amended C7 at a concrete log and undo count. -/
theorem C7_amended_undo_restores_entry_witness :
    undoLog2 ≠ [] ∧
    restore_from_fen_log init_board (truncate_fen_log_by_moves undoLog2 1) =
      restoreEntry init_board (undoLog2.getD
        (if undoLog2.length > 1 * 2 then undoLog2.length - 1 * 2 - 1
         else undoLog2.length - 1) []) :=
  ⟨by decide, C7_amended_undo_restores_entry init_board undoLog2 1 (by decide)⟩

/-- C1 (code bug demonstration): in gameC1 the en-passant capture e5xd6 is
accepted by is_valid_move and executed by make_move, yet the resulting
position has the white (moving) king attacked — the legality filter's
simulation relocates the capturing pawn but never removes the captured
pawn, so the rook's discovered attack along the fifth rank is missed. -/
theorem C1_en_passant_discovered_check_bug :
    is_valid_move gameC1 ⟨3, 4⟩ ⟨2, 3⟩ = true ∧
    (make_move PieceType.QUEEN gameC1 ⟨3, 4⟩ ⟨2, 3⟩).1 = true ∧
    is_in_check (make_move PieceType.QUEEN gameC1 ⟨3, 4⟩ ⟨2, 3⟩).2 Color.WHITE = true ∧
    (make_move PieceType.QUEEN gameC1 ⟨3, 4⟩ ⟨2, 3⟩).2.in_check_white = true :=
  ⟨by decide, by decide, by decide, by decide⟩


theorem mm_relocate_stage_scalars (g : ChessGame) (frm dest : Position) :
    (mm_relocate_stage g frm dest).current_player = g.current_player ∧
    (mm_relocate_stage g frm dest).halfmove_clock = g.halfmove_clock ∧
    (mm_relocate_stage g frm dest).fullmove_number = g.fullmove_number ∧
    (mm_relocate_stage g frm dest).en_passant_available = g.en_passant_available ∧
    (mm_relocate_stage g frm dest).en_passant_target = g.en_passant_target := by
  unfold mm_relocate_stage record_capture set_piece_at clear_position
  split_ifs <;> exact ⟨rfl, rfl, rfl, rfl, rfl⟩

theorem mm_castle_stage_scalars (mv : Piece) (frm dest : Position) (gD : ChessGame) :
    (mm_castle_stage mv frm dest gD).current_player = gD.current_player ∧
    (mm_castle_stage mv frm dest gD).halfmove_clock = gD.halfmove_clock ∧
    (mm_castle_stage mv frm dest gD).fullmove_number = gD.fullmove_number ∧
    (mm_castle_stage mv frm dest gD).en_passant_available = gD.en_passant_available ∧
    (mm_castle_stage mv frm dest gD).en_passant_target = gD.en_passant_target := by
  unfold mm_castle_stage set_piece_at clear_position
  split_ifs <;> exact ⟨rfl, rfl, rfl, rfl, rfl⟩

theorem mm_rookflag_stage_scalars (mv : Piece) (frm : Position) (gE : ChessGame) :
    (mm_rookflag_stage mv frm gE).current_player = gE.current_player ∧
    (mm_rookflag_stage mv frm gE).halfmove_clock = gE.halfmove_clock ∧
    (mm_rookflag_stage mv frm gE).fullmove_number = gE.fullmove_number ∧
    (mm_rookflag_stage mv frm gE).en_passant_available = gE.en_passant_available ∧
    (mm_rookflag_stage mv frm gE).en_passant_target = gE.en_passant_target := by
  unfold mm_rookflag_stage
  split_ifs <;> exact ⟨rfl, rfl, rfl, rfl, rfl⟩

theorem mm_board_stage_scalars (g : ChessGame) (frm dest : Position) :
    (mm_board_stage g frm dest).current_player = g.current_player ∧
    (mm_board_stage g frm dest).halfmove_clock = g.halfmove_clock ∧
    (mm_board_stage g frm dest).fullmove_number = g.fullmove_number ∧
    (mm_board_stage g frm dest).en_passant_available = g.en_passant_available ∧
    (mm_board_stage g frm dest).en_passant_target = g.en_passant_target := by
  unfold mm_board_stage
  obtain ⟨h1, h2, h3, h4, h5⟩ := mm_rookflag_stage_scalars (mm_moving g frm) frm
    (mm_castle_stage (mm_moving g frm) frm dest (mm_relocate_stage g frm dest))
  obtain ⟨k1, k2, k3, k4, k5⟩ := mm_castle_stage_scalars (mm_moving g frm) frm dest
    (mm_relocate_stage g frm dest)
  obtain ⟨r1, r2, r3, r4, r5⟩ := mm_relocate_stage_scalars g frm dest
  exact ⟨by rw [h1, k1, r1], by rw [h2, k2, r2], by rw [h3, k3, r3],
    by rw [h4, k4, r4], by rw [h5, k5, r5]⟩

theorem make_move_counters (choice : PieceType) (g : ChessGame) (frm dest : Position)
    (hv : is_valid_move g frm dest = true)
    (hp : is_promotion_move g frm dest = false) :
    (make_move choice g frm dest).1 = true ∧
    (make_move choice g frm dest).2.halfmove_clock =
      (if (mm_moving g frm).type = PieceType.PAWN ∨
          ¬ ((mm_captured g frm dest).type = PieceType.EMPTY) ∨ mm_is_ep g frm dest = true
       then 0 else g.halfmove_clock + 1) ∧
    (make_move choice g frm dest).2.en_passant_available =
      decide ((mm_moving g frm).type = PieceType.PAWN ∧ (dest.row - frm.row).natAbs = 2) ∧
    (make_move choice g frm dest).2.en_passant_target =
      (if (mm_moving g frm).type = PieceType.PAWN ∧ (dest.row - frm.row).natAbs = 2 then
        (⟨(frm.row + dest.row) / 2, dest.col⟩ : Position) else (⟨-1, -1⟩ : Position)) ∧
    (make_move choice g frm dest).2.fullmove_number =
      (if g.current_player = Color.BLACK then g.fullmove_number + 1
       else g.fullmove_number) ∧
    (make_move choice g frm dest).2.current_player =
      (if g.current_player = Color.WHITE then Color.BLACK else Color.WHITE) := by
  obtain ⟨s1, s2, s3, s4, s5⟩ := mm_board_stage_scalars g frm dest
  unfold make_move
  rw [if_neg (by simp [hv]), if_neg (by simp [hp])]
  refine ⟨rfl, ?_, ?_, ?_, ?_, ?_⟩ <;>
    simp only [] <;> simp only [s1, s2, s3, s4, s5] <;>
    split_ifs <;> simp_all

theorem valid_move_mem (g : ChessGame) (frm dest : Position)
    (hv : is_valid_move g frm dest = true) : dest ∈ get_possible_moves g frm := by
  unfold is_valid_move at hv
  have h1 := ((Bool.and_eq_true _ _).mp hv).1
  obtain ⟨m, hm, hmd⟩ := List.any_eq_true.mp h1
  have h3 : m = dest := of_decide_eq_true hmd
  exact h3 ▸ hm

theorem mem_pawn_moves_of_valid (g : ChessGame) (frm dest : Position)
    (hv : is_valid_move g frm dest = true)
    (hp : (mm_moving g frm).type = PieceType.PAWN) : dest ∈ get_pawn_moves g frm := by
  have hmem := valid_move_mem g frm dest hv
  unfold mm_moving at hp
  unfold get_possible_moves at hmem
  split_ifs at hmem with h1
  · simp at hmem
  · simp at hmem
    rw [hp] at hmem
    exact hmem.2

theorem pawn_double_shape (g : ChessGame) (frm dest : Position)
    (hmem : dest ∈ get_pawn_moves g frm)
    (h2 : (dest.row - frm.row).natAbs = 2) :
    frm.row = (if (mm_moving g frm).color = Color.WHITE then (6 : Int) else 1) ∧
    dest.col = frm.col ∧
    dest.row = frm.row + 2 * (if (mm_moving g frm).color = Color.WHITE then (-1 : Int) else 1) ∧
    is_valid_position dest.row dest.col = true := by
  unfold get_pawn_moves at hmem
  unfold mm_moving
  simp only [List.mem_append] at hmem
  by_cases hw : (get_piece_at g frm.row frm.col).color = Color.WHITE
  · simp only [hw, if_true, reduceIte] at hmem ⊢
    rcases hmem with (hf | hc) | he
    · split_ifs at hf with hg1 hg2 hg3
      · rcases List.mem_cons.mp hf with hf1 | hf1
        · exfalso
          rw [hf1] at h2
          simp at h2
        · have hd : dest = ⟨frm.row + 2 * -1, frm.col⟩ := by simpa using hf1
          subst hd
          exact ⟨hg2, rfl, rfl, ((Bool.and_eq_true _ _).mp hg3).1⟩
      · rcases List.mem_cons.mp hf with hf1 | hf1
        · exfalso
          rw [hf1] at h2
          simp at h2
        · simp at hf1
      · rcases List.mem_cons.mp hf with hf1 | hf1
        · exfalso
          rw [hf1] at h2
          simp at h2
        · simp at hf1
      · simp at hf
    · obtain ⟨nc, hnc, hsome⟩ := List.mem_filterMap.mp hc
      exfalso
      split_ifs at hsome with hg
      · have hd : dest = ⟨frm.row + -1, nc⟩ := by
          have := hsome
          simp only [Option.some.injEq] at this
          exact this.symm
        rw [hd] at h2
        simp at h2
    · exfalso
      by_cases hA : g.en_passant_available
      · rw [if_pos hA] at he
        split_ifs at he with hcond
        · have hd : dest = g.en_passant_target := by simpa using he
          rw [hd, hcond.2.2] at h2
          simp at h2
        · simp at he
      · rw [if_neg hA] at he
        simp at he
  · simp only [hw, if_false, reduceIte] at hmem ⊢
    rcases hmem with (hf | hc) | he
    · split_ifs at hf with hg1 hg2 hg3
      · rcases List.mem_cons.mp hf with hf1 | hf1
        · exfalso
          rw [hf1] at h2
          simp at h2
        · have hd : dest = ⟨frm.row + 2 * 1, frm.col⟩ := by simpa using hf1
          subst hd
          exact ⟨hg2, rfl, rfl, ((Bool.and_eq_true _ _).mp hg3).1⟩
      · rcases List.mem_cons.mp hf with hf1 | hf1
        · exfalso
          rw [hf1] at h2
          simp at h2
        · simp at hf1
      · rcases List.mem_cons.mp hf with hf1 | hf1
        · exfalso
          rw [hf1] at h2
          simp at h2
        · simp at hf1
      · simp at hf
    · obtain ⟨nc, hnc, hsome⟩ := List.mem_filterMap.mp hc
      exfalso
      split_ifs at hsome with hg
      · have hd : dest = ⟨frm.row + 1, nc⟩ := by
          have := hsome
          simp only [Option.some.injEq] at this
          exact this.symm
        rw [hd] at h2
        simp at h2
    · exfalso
      by_cases hA : g.en_passant_available
      · rw [if_pos hA] at he
        split_ifs at he with hcond
        · have hd : dest = g.en_passant_target := by simpa using he
          rw [hd, hcond.2.2] at h2
          simp at h2
        · simp at he
      · rw [if_neg hA] at he
        simp at he


theorem mpm_board_stage_scalars (g : ChessGame) (frm dest : Position) (pt : PieceType) :
    (mpm_board_stage g frm dest pt).current_player = g.current_player ∧
    (mpm_board_stage g frm dest pt).halfmove_clock = g.halfmove_clock ∧
    (mpm_board_stage g frm dest pt).fullmove_number = g.fullmove_number ∧
    (mpm_board_stage g frm dest pt).en_passant_available = g.en_passant_available ∧
    (mpm_board_stage g frm dest pt).en_passant_target = g.en_passant_target := by
  unfold mpm_board_stage record_capture set_piece_at clear_position
  simp only []
  split_ifs <;> exact ⟨rfl, rfl, rfl, rfl, rfl⟩

theorem make_promotion_move_accepted (g : ChessGame) (frm dest : Position)
    (pt : PieceType) (hacc : (make_promotion_move g frm dest pt).1 = true) :
    is_promotion_move g frm dest = true ∧ is_valid_promotion_piece pt = true ∧
    is_valid_move g frm dest = true := by
  unfold make_promotion_move at hacc
  split_ifs at hacc with h1 h2 h3
  exact ⟨by simpa using h1, by simpa using h2, by simpa using h3⟩

theorem make_promotion_move_fields (g : ChessGame) (frm dest : Position)
    (pt : PieceType) (hacc : (make_promotion_move g frm dest pt).1 = true) :
    (make_promotion_move g frm dest pt).2.halfmove_clock = 0 ∧
    (make_promotion_move g frm dest pt).2.en_passant_available = false ∧
    (make_promotion_move g frm dest pt).2.en_passant_target = (⟨-1, -1⟩ : Position) ∧
    (make_promotion_move g frm dest pt).2.fullmove_number =
      (if g.current_player = Color.BLACK then g.fullmove_number + 1
       else g.fullmove_number) ∧
    (make_promotion_move g frm dest pt).2.current_player =
      (if g.current_player = Color.WHITE then Color.BLACK else Color.WHITE) := by
  obtain ⟨p1, p2, p3, p4, p5⟩ := mpm_board_stage_scalars g frm dest pt
  unfold make_promotion_move at hacc ⊢
  split_ifs at hacc with h1 h2 h3
  rw [if_neg (by simp [h1]), if_neg (by simp [h2]), if_neg (by simp [h3])]
  refine ⟨?_, ?_, ?_, ?_, ?_⟩ <;>
    simp only [] <;> simp only [p1, p2, p3, p4, p5] <;> split_ifs <;> simp_all

theorem is_promotion_move_pawn_row (g : ChessGame) (frm dest : Position)
    (h : is_promotion_move g frm dest = true) :
    (mm_moving g frm).type = PieceType.PAWN ∧
    dest.row = (if (mm_moving g frm).color = Color.WHITE then (0 : Int) else 7) := by
  unfold is_promotion_move at h
  unfold mm_moving
  by_cases hp : (get_piece_at g frm.row frm.col).type = PieceType.PAWN
  · refine ⟨hp, ?_⟩
    rw [if_neg (by simp [hp])] at h
    by_cases hw : (get_piece_at g frm.row frm.col).color = Color.WHITE
    · simp only [hw, if_true, reduceIte] at h ⊢
      exact of_decide_eq_true h
    · simp only [hw, if_false, reduceIte] at h ⊢
      exact of_decide_eq_true h
  · rw [if_pos (by simp [hp])] at h
    cases h

theorem make_move_accepted_valid (choice : PieceType) (g : ChessGame)
    (frm dest : Position) (hacc : (make_move choice g frm dest).1 = true) :
    is_valid_move g frm dest = true := by
  unfold make_move at hacc
  by_cases hv : is_valid_move g frm dest = true
  · exact hv
  · rw [if_pos (by simp [hv])] at hacc
    cases hacc

theorem make_move_promo_delegates (choice : PieceType) (g : ChessGame)
    (frm dest : Position) (hv : is_valid_move g frm dest = true)
    (hp : is_promotion_move g frm dest = true) :
    make_move choice g frm dest = make_promotion_move g frm dest choice := by
  unfold make_move
  rw [if_neg (by simp [hv]), if_pos (by simp [hp])]

/-- C4: on every accepted move the halfmove clock is reset to 0 exactly when
the move was a pawn move or a capture (a piece on the destination square or
an en-passant capture; promotions are pawn moves and always reset), and on
every other accepted move it increases by exactly 1.  Stated for make_move
(including its promotion delegation) and for make_promotion_move. -/
theorem C4_halfmove_clock_spec (choice : PieceType) (g : ChessGame)
    (frm dest : Position) (hclock : 0 ≤ g.halfmove_clock) :
    ((make_move choice g frm dest).1 = true →
      (make_move choice g frm dest).2.halfmove_clock =
        (if (mm_moving g frm).type = PieceType.PAWN ∨
            ¬ ((mm_captured g frm dest).type = PieceType.EMPTY) ∨
            mm_is_ep g frm dest = true
         then 0 else g.halfmove_clock + 1) ∧
      ((make_move choice g frm dest).2.halfmove_clock = 0 ↔
        ((mm_moving g frm).type = PieceType.PAWN ∨
          ¬ ((mm_captured g frm dest).type = PieceType.EMPTY) ∨
          mm_is_ep g frm dest = true))) ∧
    ((make_promotion_move g frm dest choice).1 = true →
      (mm_moving g frm).type = PieceType.PAWN ∧
      (make_promotion_move g frm dest choice).2.halfmove_clock = 0) := by
  constructor
  · intro hacc
    have hv := make_move_accepted_valid choice g frm dest hacc
    by_cases hp : is_promotion_move g frm dest = true
    · have hdel := make_move_promo_delegates choice g frm dest hv hp
      have hpacc : (make_promotion_move g frm dest choice).1 = true := by
        rw [hdel] at hacc
        exact hacc
      have hpawn := (is_promotion_move_pawn_row g frm dest hp).1
      have hfld := (make_promotion_move_fields g frm dest choice hpacc).1
      rw [hdel, hfld]
      constructor
      · rw [if_pos (Or.inl hpawn)]
      · simp [hpawn]
    · have hp' : is_promotion_move g frm dest = false := by
        cases h : is_promotion_move g frm dest
        · rfl
        · exact absurd h hp
      obtain ⟨-, hh, -, -, -, -⟩ := make_move_counters choice g frm dest hv hp'
      refine ⟨hh, ?_⟩
      rw [hh]
      by_cases hc : (mm_moving g frm).type = PieceType.PAWN ∨
          ¬ ((mm_captured g frm dest).type = PieceType.EMPTY) ∨
          mm_is_ep g frm dest = true
      · simp [hc]
      · rw [if_neg hc]
        constructor
        · intro h0
          exfalso
          omega
        · intro h
          exact absurd h hc
  · intro hpacc
    have hpawn := (is_promotion_move_pawn_row g frm dest
      (make_promotion_move_accepted g frm dest choice hpacc).1).1
    exact ⟨hpawn, (make_promotion_move_fields g frm dest choice hpacc).1⟩

/-- C5: every accepted move clears the en-passant target unconditionally and
re-sets it exactly when the move just applied was a pawn double-step, to the
square passed over; hence after any accepted move the target is available
iff that move was a double-step (one-reply window), and an accepted
promotion move never creates an en-passant opportunity. -/
theorem C5_en_passant_window_spec (choice : PieceType) (g : ChessGame)
    (frm dest : Position) :
    ((make_move choice g frm dest).1 = true →
      ((make_move choice g frm dest).2.en_passant_available = true ↔
        ((mm_moving g frm).type = PieceType.PAWN ∧ (dest.row - frm.row).natAbs = 2)) ∧
      ((make_move choice g frm dest).2.en_passant_available = true →
        (make_move choice g frm dest).2.en_passant_target =
          (⟨(frm.row + dest.row) / 2, dest.col⟩ : Position)) ∧
      ((make_move choice g frm dest).2.en_passant_available = false →
        (make_move choice g frm dest).2.en_passant_target = (⟨-1, -1⟩ : Position))) ∧
    ((make_promotion_move g frm dest choice).1 = true →
      (make_promotion_move g frm dest choice).2.en_passant_available = false ∧
      (make_promotion_move g frm dest choice).2.en_passant_target =
        (⟨-1, -1⟩ : Position)) := by
  constructor
  · intro hacc
    have hv := make_move_accepted_valid choice g frm dest hacc
    by_cases hp : is_promotion_move g frm dest = true
    · have hdel := make_move_promo_delegates choice g frm dest hv hp
      have hpacc : (make_promotion_move g frm dest choice).1 = true := by
        rw [hdel] at hacc
        exact hacc
      obtain ⟨hpawn, hrow⟩ := is_promotion_move_pawn_row g frm dest hp
      obtain ⟨-, hepa, hept, -, -⟩ := make_promotion_move_fields g frm dest choice hpacc
      have hnot2 : ¬ ((dest.row - frm.row).natAbs = 2) := by
        intro h2
        obtain ⟨hstart, -, hdrow, -⟩ := pawn_double_shape g frm dest
          (mem_pawn_moves_of_valid g frm dest hv hpawn) h2
        by_cases hw : (mm_moving g frm).color = Color.WHITE <;>
          simp only [hw, if_true, if_false, reduceIte] at hstart hdrow hrow <;> omega
      rw [hdel, hepa, hept]
      refine ⟨?_, ?_, ?_⟩
      · constructor
        · intro h
          cases h
        · intro h
          exact absurd h.2 hnot2
      · intro h
        cases h
      · intro h
        rfl
    · have hp' : is_promotion_move g frm dest = false := by
        cases h : is_promotion_move g frm dest
        · rfl
        · exact absurd h hp
      obtain ⟨-, -, hepa, hept, -, -⟩ := make_move_counters choice g frm dest hv hp'
      rw [hepa, hept]
      by_cases hc : (mm_moving g frm).type = PieceType.PAWN ∧ (dest.row - frm.row).natAbs = 2
      · refine ⟨by simp [hc], fun h => by rw [if_pos hc], fun h => ?_⟩
        exfalso
        simp [hc] at h
      · refine ⟨by simp [hc], fun h => ?_, fun h => by rw [if_neg hc]⟩
        exfalso
        simp [hc] at h
  · intro hpacc
    obtain ⟨-, hepa, hept, -, -⟩ := make_promotion_move_fields g frm dest choice hpacc
    exact ⟨hepa, hept⟩

/-- Witness for C4 at a concrete input (initial position, e2 to e4, a pawn
move: the clock resets to 0). -/
theorem C4_halfmove_clock_spec_witness :
    0 ≤ init_board.halfmove_clock ∧
    (make_move PieceType.QUEEN init_board ⟨6, 4⟩ ⟨4, 4⟩).1 = true ∧
    (make_move PieceType.QUEEN init_board ⟨6, 4⟩ ⟨4, 4⟩).2.halfmove_clock =
      (if (mm_moving init_board ⟨6, 4⟩).type = PieceType.PAWN ∨
          ¬ ((mm_captured init_board ⟨6, 4⟩ ⟨4, 4⟩).type = PieceType.EMPTY) ∨
          mm_is_ep init_board ⟨6, 4⟩ ⟨4, 4⟩ = true
       then 0 else init_board.halfmove_clock + 1) :=
  ⟨by decide, by decide,
    (((C4_halfmove_clock_spec PieceType.QUEEN init_board ⟨6, 4⟩ ⟨4, 4⟩
      (by decide)).1) (by decide)).1⟩

/-- Witness for C5 at a concrete input (initial position, the double step
e2-e4 creates the target e3; the iff and the target equation follow from
the claim theorem with the acceptance hypothesis discharged). -/
theorem C5_en_passant_window_spec_witness :
    (make_move PieceType.QUEEN init_board ⟨6, 4⟩ ⟨4, 4⟩).1 = true ∧
    ((make_move PieceType.QUEEN init_board ⟨6, 4⟩ ⟨4, 4⟩).2.en_passant_available = true ↔
      ((mm_moving init_board ⟨6, 4⟩).type = PieceType.PAWN ∧
        (((4 : Int)) - 6).natAbs = 2)) :=
  ⟨by decide,
    (((C5_en_passant_window_spec PieceType.QUEEN init_board ⟨6, 4⟩ ⟨4, 4⟩).1
      (by decide)).1)⟩


theorem king_nc_col_bound (g : ChessGame) (frm : Position) (m : Position)
    (hm : m ∈ get_king_moves_no_castling g frm) : (m.col - frm.col).natAbs ≤ 1 := by
  unfold get_king_moves_no_castling at hm
  obtain ⟨d, hd, hsome⟩ := List.mem_filterMap.mp hm
  simp only [] at hsome
  split_ifs at hsome with hg
  · have hme : m = ⟨frm.row + d.1, frm.col + d.2⟩ := by simpa using hsome.symm
    subst hme
    fin_cases hd <;> simp <;> omega

/-- C6: with the king of color c on its home square, the castling
destination (king displaced two files) is generated by get_king_moves iff
the game is not flagged in check for c, the king-moved and relevant
rook-moved flags are clear, every square strictly between king and rook is
empty, and neither the square the king passes through nor its destination
is attacked by the opponent; if any condition fails the destination is not
generated (the adjacent-square moves never reach two files away), so the
attempt is rejected by is_valid_move.  Both wings, both colors. -/
theorem C6_castling_gating (g : ChessGame) (c : Color) (frm : Position)
    (hk : get_piece_at g frm.row frm.col = ⟨PieceType.KING, c⟩)
    (hr : frm = (if c = Color.WHITE then (⟨7, 4⟩ : Position) else ⟨0, 4⟩)) :
    ((if c = Color.WHITE then (⟨7, 6⟩ : Position) else ⟨0, 6⟩) ∈ get_king_moves g frm ↔
      (g.inCheck c = false ∧
       (if c = Color.WHITE then g.white_king_moved else g.black_king_moved) = false ∧
       (if c = Color.WHITE then g.white_rook_h_moved else g.black_rook_h_moved) = false ∧
       is_piece_at g frm.row 5 = false ∧ is_piece_at g frm.row 6 = false ∧
       is_square_attacked_basic g ⟨frm.row, 5⟩ c.opp = false ∧
       is_square_attacked_basic g ⟨frm.row, 6⟩ c.opp = false)) ∧
    ((if c = Color.WHITE then (⟨7, 2⟩ : Position) else ⟨0, 2⟩) ∈ get_king_moves g frm ↔
      (g.inCheck c = false ∧
       (if c = Color.WHITE then g.white_king_moved else g.black_king_moved) = false ∧
       (if c = Color.WHITE then g.white_rook_a_moved else g.black_rook_a_moved) = false ∧
       is_piece_at g frm.row 1 = false ∧ is_piece_at g frm.row 2 = false ∧
       is_piece_at g frm.row 3 = false ∧
       is_square_attacked_basic g ⟨frm.row, 2⟩ c.opp = false ∧
       is_square_attacked_basic g ⟨frm.row, 3⟩ c.opp = false)) := by
  have hbase6 : ∀ hrow : Int, (⟨hrow, 6⟩ : Position) ∉ get_king_moves_no_castling g frm := by
    intro hrow h
    have hb := king_nc_col_bound g frm _ h
    rw [hr] at hb
    rcases c <;> simp at hb <;> omega
  have hbase2 : ∀ hrow : Int, (⟨hrow, 2⟩ : Position) ∉ get_king_moves_no_castling g frm := by
    intro hrow h
    have hb := king_nc_col_bound g frm _ h
    rw [hr] at hb
    rcases c <;> simp at hb <;> omega
  unfold get_king_moves
  rw [hk]
  rcases c with _ | _
  · simp only [reduceIte] at hr ⊢
    subst hr
    simp only [Color.opp]
    by_cases hic : g.inCheck Color.WHITE = false
    · rw [if_pos (by simp [ChessGame.inCheck] at hic ⊢; simp [hic])]
      constructor
      · constructor
        · intro hmem
          rcases List.mem_append.mp hmem with hmem | hmem
          · rcases List.mem_append.mp hmem with hmem | hmem
            · exact absurd hmem (hbase6 7)
            · refine ⟨hic, ?_⟩
              split_ifs at hmem with hcond
              · simp only [Bool.and_eq_true, Bool.not_eq_true', decide_eq_true_eq]
                  at hcond
                obtain ⟨⟨⟨⟨⟨⟨h1, h2⟩, h3⟩, h4⟩, h5⟩, h6⟩, h7⟩ := hcond
                exact ⟨h1, h2, h4, h5, h6, h7⟩
              · simp at hmem
          · split_ifs at hmem with hcond
            · simp at hmem
            · simp at hmem
        · rintro ⟨-, h2, h3, h4, h5, h6, h7⟩
          refine List.mem_append.mpr (Or.inl (List.mem_append.mpr (Or.inr ?_)))
          rw [if_pos ?_]
          · exact List.mem_singleton.mpr rfl
          · simp only [Bool.and_eq_true, Bool.not_eq_true', decide_eq_true_eq]
            exact ⟨⟨⟨⟨⟨⟨h2, h3⟩, trivial, trivial⟩, h4⟩, h5⟩, h6⟩, h7⟩
      · constructor
        · intro hmem
          rcases List.mem_append.mp hmem with hmem | hmem
          · rcases List.mem_append.mp hmem with hmem | hmem
            · exact absurd hmem (hbase2 7)
            · split_ifs at hmem with hcond
              · simp at hmem
              · simp at hmem
          · refine ⟨hic, ?_⟩
            split_ifs at hmem with hcond
            · simp only [Bool.and_eq_true, Bool.not_eq_true', decide_eq_true_eq]
                at hcond
              obtain ⟨⟨⟨⟨⟨⟨⟨h1, h2⟩, h3⟩, h4⟩, h5⟩, h5b⟩, h6⟩, h7⟩ := hcond
              exact ⟨h1, h2, h4, h5, h5b, h6, h7⟩
            · simp at hmem
        · rintro ⟨-, h2, h3, h4, h5, h5b, h6, h7⟩
          refine List.mem_append.mpr (Or.inr ?_)
          rw [if_pos ?_]
          · exact List.mem_singleton.mpr rfl
          · simp only [Bool.and_eq_true, Bool.not_eq_true', decide_eq_true_eq]
            exact ⟨⟨⟨⟨⟨⟨⟨h2, h3⟩, trivial, trivial⟩, h4⟩, h5⟩, h5b⟩, h6⟩, h7⟩
    · have hic' : g.inCheck Color.WHITE = true := by
        cases h : g.inCheck Color.WHITE
        · exact absurd h hic
        · rfl
      rw [if_neg (by simp [hic'])]
      constructor
      · constructor
        · intro hmem
          exact absurd hmem (hbase6 7)
        · rintro ⟨h1, -⟩
          exact absurd h1 hic
      · constructor
        · intro hmem
          exact absurd hmem (hbase2 7)
        · rintro ⟨h1, -⟩
          exact absurd h1 hic
  · simp only [reduceCtorEq, if_false] at hr ⊢
    subst hr
    simp only [Color.opp]
    by_cases hic : g.inCheck Color.BLACK = false
    · rw [if_pos (by simp [ChessGame.inCheck] at hic ⊢; simp [hic])]
      constructor
      · constructor
        · intro hmem
          rcases List.mem_append.mp hmem with hmem | hmem
          · rcases List.mem_append.mp hmem with hmem | hmem
            · exact absurd hmem (hbase6 0)
            · refine ⟨hic, ?_⟩
              split_ifs at hmem with hcond
              · simp only [Bool.and_eq_true, Bool.not_eq_true', decide_eq_true_eq]
                  at hcond
                obtain ⟨⟨⟨⟨⟨⟨h1, h2⟩, h3⟩, h4⟩, h5⟩, h6⟩, h7⟩ := hcond
                exact ⟨h1, h2, h4, h5, h6, h7⟩
              · simp at hmem
          · split_ifs at hmem with hcond
            · simp at hmem
            · simp at hmem
        · rintro ⟨-, h2, h3, h4, h5, h6, h7⟩
          refine List.mem_append.mpr (Or.inl (List.mem_append.mpr (Or.inr ?_)))
          rw [if_pos ?_]
          · exact List.mem_singleton.mpr rfl
          · simp only [Bool.and_eq_true, Bool.not_eq_true', decide_eq_true_eq]
            exact ⟨⟨⟨⟨⟨⟨h2, h3⟩, trivial, trivial⟩, h4⟩, h5⟩, h6⟩, h7⟩
      · constructor
        · intro hmem
          rcases List.mem_append.mp hmem with hmem | hmem
          · rcases List.mem_append.mp hmem with hmem | hmem
            · exact absurd hmem (hbase2 0)
            · split_ifs at hmem with hcond
              · simp at hmem
              · simp at hmem
          · refine ⟨hic, ?_⟩
            split_ifs at hmem with hcond
            · simp only [Bool.and_eq_true, Bool.not_eq_true', decide_eq_true_eq]
                at hcond
              obtain ⟨⟨⟨⟨⟨⟨⟨h1, h2⟩, h3⟩, h4⟩, h5⟩, h5b⟩, h6⟩, h7⟩ := hcond
              exact ⟨h1, h2, h4, h5, h5b, h6, h7⟩
            · simp at hmem
        · rintro ⟨-, h2, h3, h4, h5, h5b, h6, h7⟩
          refine List.mem_append.mpr (Or.inr ?_)
          rw [if_pos ?_]
          · exact List.mem_singleton.mpr rfl
          · simp only [Bool.and_eq_true, Bool.not_eq_true', decide_eq_true_eq]
            exact ⟨⟨⟨⟨⟨⟨⟨h2, h3⟩, trivial, trivial⟩, h4⟩, h5⟩, h5b⟩, h6⟩, h7⟩
    · have hic' : g.inCheck Color.BLACK = true := by
        cases h : g.inCheck Color.BLACK
        · exact absurd h hic
        · rfl
      rw [if_neg (by simp [hic'])]
      constructor
      · constructor
        · intro hmem
          exact absurd hmem (hbase6 0)
        · rintro ⟨h1, -⟩
          exact absurd h1 hic
      · constructor
        · intro hmem
          exact absurd hmem (hbase2 0)
        · rintro ⟨h1, -⟩
          exact absurd h1 hic

/-- Witness for C6 at a concrete input (initial position, white king e1;
both sides of the kingside iff are false there: f1/g1 are occupied). -/
theorem C6_castling_gating_witness :
    get_piece_at init_board (7 : Int) (4 : Int) = ⟨PieceType.KING, Color.WHITE⟩ ∧
    ((if Color.WHITE = Color.WHITE then (⟨7, 6⟩ : Position) else ⟨0, 6⟩) ∈
        get_king_moves init_board ⟨7, 4⟩ ↔
      (init_board.inCheck Color.WHITE = false ∧
       (if Color.WHITE = Color.WHITE then init_board.white_king_moved
        else init_board.black_king_moved) = false ∧
       (if Color.WHITE = Color.WHITE then init_board.white_rook_h_moved
        else init_board.black_rook_h_moved) = false ∧
       is_piece_at init_board (7 : Int) 5 = false ∧
       is_piece_at init_board (7 : Int) 6 = false ∧
       is_square_attacked_basic init_board ⟨7, 5⟩ Color.WHITE.opp = false ∧
       is_square_attacked_basic init_board ⟨7, 6⟩ Color.WHITE.opp = false)) :=
  ⟨by decide, ((C6_castling_gating init_board Color.WHITE ⟨7, 4⟩ (by decide) rfl).1)⟩


theorem normBoard_set (b : Int → Int → Piece) (row col : Int) (p : Piece)
    (hb : NormBoard b) (hin : is_valid_position row col = true)
    (hp : p.type = PieceType.EMPTY → p = emptyPiece) :
    NormBoard (boardSet b row col p) := by
  obtain ⟨h1, h2⟩ := hb
  constructor
  · intro r c h
    unfold boardSet at h ⊢
    split_ifs at h ⊢ with hrc
    · exact hp h
    · exact h1 r c h
  · intro r c h
    unfold boardSet
    split_ifs with hrc
    · exfalso
      obtain ⟨rfl, rfl⟩ := hrc
      rw [hin] at h
      cases h
    · exact h2 r c h

theorem rayMoves_in_bounds (g : ChessGame) (pc : Color) (frm : Position)
    (dr dc : Int) (i : Int) (fuel : Nat) (m : Position)
    (hm : m ∈ rayMoves g pc frm dr dc i fuel) :
    is_valid_position m.row m.col = true := by
  induction fuel generalizing i with
  | zero => cases hm
  | succ fuel ih =>
    unfold rayMoves at hm
    simp only [] at hm
    split_ifs at hm with h1 h2 h3
    · simp at hm
    · simp only [List.mem_singleton] at hm
      subst hm
      simpa using h1
    · simp at hm
    · rcases List.mem_cons.mp hm with rfl | hm
      · simpa using h1
      · exact ih _ hm

theorem filterMap_offsets_in_bounds (g : ChessGame) (pc : Color) (frm : Position)
    (ds : List (Int × Int)) (m : Position)
    (hm : m ∈ ds.filterMap fun d =>
      let new_row := frm.row + d.1
      let new_col := frm.col + d.2
      if is_valid_position new_row new_col &&
          (!(is_piece_at g new_row new_col) ||
            decide ((get_piece_at g new_row new_col).color ≠ pc)) then
        some ⟨new_row, new_col⟩
      else none) :
    is_valid_position m.row m.col = true := by
  obtain ⟨d, hd, hsome⟩ := List.mem_filterMap.mp hm
  simp only [] at hsome
  split_ifs at hsome with hg
  · have : m = ⟨frm.row + d.1, frm.col + d.2⟩ := by simpa using hsome.symm
    subst this
    exact ((Bool.and_eq_true _ _).mp hg).1

theorem pawn_moves_in_bounds (g : ChessGame) (frm : Position) (m : Position)
    (hwf : WF g) (hm : m ∈ get_pawn_moves g frm) :
    is_valid_position m.row m.col = true := by
  unfold get_pawn_moves at hm
  simp only [List.mem_append] at hm
  by_cases hw : (get_piece_at g frm.row frm.col).color = Color.WHITE <;>
    [simp only [hw, if_true, reduceIte] at hm;
     simp only [hw, if_false, reduceIte] at hm] <;>
    · rcases hm with (hf | hc) | he
      · split_ifs at hf with hg1 hg2 hg3
        · rcases List.mem_cons.mp hf with rfl | hf
          · simpa using ((Bool.and_eq_true _ _).mp hg1).1
          · have hfm := List.mem_singleton.mp hf
            subst hfm
            simpa using ((Bool.and_eq_true _ _).mp hg3).1
        · rcases List.mem_cons.mp hf with rfl | hf
          · simpa using ((Bool.and_eq_true _ _).mp hg1).1
          · simp at hf
        · rcases List.mem_cons.mp hf with rfl | hf
          · simpa using ((Bool.and_eq_true _ _).mp hg1).1
          · simp at hf
        · simp at hf
      · obtain ⟨nc, hnc, hsome⟩ := List.mem_filterMap.mp hc
        split_ifs at hsome with hg
        · have hme := (Option.some_inj.mp hsome).symm
          subst hme
          simpa using ((Bool.and_eq_true _ _).mp ((Bool.and_eq_true _ _).mp hg).1).1
      · by_cases hA : g.en_passant_available
        · rw [if_pos hA] at he
          split_ifs at he with hcond
          · have hme : m = g.en_passant_target := by simpa using he
            subst hme
            have hb := hwf.2.1 (by simpa using hA)
            unfold is_valid_position
            simp only [decide_eq_true_eq]
            exact ⟨hb.1, hb.2.1, hb.2.2.1, hb.2.2.2⟩
          · simp at he
        · rw [if_neg hA] at he
          simp at he

theorem rook_moves_in_bounds (g : ChessGame) (frm : Position) (m : Position)
    (hm : m ∈ get_rook_moves g frm) : is_valid_position m.row m.col = true := by
  unfold get_rook_moves at hm
  simp only [List.mem_append] at hm
  rcases hm with ((h | h) | h) | h <;> exact rayMoves_in_bounds g _ frm _ _ _ _ m h

theorem bishop_moves_in_bounds (g : ChessGame) (frm : Position) (m : Position)
    (hm : m ∈ get_bishop_moves g frm) : is_valid_position m.row m.col = true := by
  unfold get_bishop_moves at hm
  simp only [List.mem_append] at hm
  rcases hm with ((h | h) | h) | h <;> exact rayMoves_in_bounds g _ frm _ _ _ _ m h

theorem queen_moves_in_bounds (g : ChessGame) (frm : Position) (m : Position)
    (hm : m ∈ get_queen_moves g frm) : is_valid_position m.row m.col = true := by
  unfold get_queen_moves at hm
  rcases List.mem_append.mp hm with h | h
  · exact rook_moves_in_bounds g frm m h
  · exact bishop_moves_in_bounds g frm m h

theorem knight_moves_in_bounds (g : ChessGame) (frm : Position) (m : Position)
    (hm : m ∈ get_knight_moves g frm) : is_valid_position m.row m.col = true := by
  unfold get_knight_moves at hm
  exact filterMap_offsets_in_bounds g _ frm _ m hm

theorem king_nc_moves_in_bounds (g : ChessGame) (frm : Position) (m : Position)
    (hm : m ∈ get_king_moves_no_castling g frm) :
    is_valid_position m.row m.col = true := by
  unfold get_king_moves_no_castling at hm
  exact filterMap_offsets_in_bounds g _ frm _ m hm

theorem king_moves_in_bounds (g : ChessGame) (frm : Position) (m : Position)
    (hm : m ∈ get_king_moves g frm) : is_valid_position m.row m.col = true := by
  unfold get_king_moves at hm
  simp only [] at hm
  split_ifs at hm <;>
    try simp only [List.mem_append, List.mem_singleton, List.not_mem_nil, or_false,
      List.append_nil] at hm
  all_goals
    first
      | exact king_nc_moves_in_bounds g frm m hm
      | (rcases hm with hm | rfl
         · exact king_nc_moves_in_bounds g frm m hm
         · decide)
      | (rcases hm with (hm | rfl) | rfl
         · exact king_nc_moves_in_bounds g frm m hm
         · decide
         · decide)

theorem possible_moves_in_bounds (g : ChessGame) (frm : Position) (m : Position)
    (hwf : WF g) (hm : m ∈ get_possible_moves g frm) :
    is_valid_position m.row m.col = true := by
  unfold get_possible_moves at hm
  split_ifs at hm with h1
  · simp at hm
  · simp at hm
    have hm2 := hm.2
    rcases h : (get_piece_at g frm.row frm.col).type <;> rw [h] at hm2
    · simp at hm2
    · exact pawn_moves_in_bounds g frm m hwf hm2
    · exact rook_moves_in_bounds g frm m hm2
    · exact knight_moves_in_bounds g frm m hm2
    · exact bishop_moves_in_bounds g frm m hm2
    · exact queen_moves_in_bounds g frm m hm2
    · exact king_moves_in_bounds g frm m hm2

theorem valid_move_facts (g : ChessGame) (frm dest : Position) (hwf : WF g)
    (hv : is_valid_move g frm dest = true) :
    is_valid_position frm.row frm.col = true ∧
    is_valid_position dest.row dest.col = true ∧
    is_piece_at g frm.row frm.col = true := by
  have hmem := valid_move_mem g frm dest hv
  refine ⟨?_, possible_moves_in_bounds g frm dest hwf hmem, ?_⟩ <;>
    · unfold get_possible_moves at hmem
      split_ifs at hmem with h1
      · simp at hmem
      · have h1x : is_valid_position frm.row frm.col = true ∧
            is_piece_at g frm.row frm.col = true := by simpa using h1
        first
          | exact h1x.1
          | exact h1x.2

theorem pawn_move_rows (g : ChessGame) (frm dest : Position)
    (hm : dest ∈ get_pawn_moves g frm) :
    dest.row = frm.row +
      (if (get_piece_at g frm.row frm.col).color = Color.WHITE then (-1 : Int) else 1) ∨
    dest.row = frm.row +
      2 * (if (get_piece_at g frm.row frm.col).color = Color.WHITE then (-1 : Int) else 1) := by
  unfold get_pawn_moves at hm
  simp only [List.mem_append] at hm
  by_cases hw : (get_piece_at g frm.row frm.col).color = Color.WHITE <;>
    [simp only [hw, if_true, reduceIte] at hm ⊢;
     simp only [hw, if_false, reduceIte] at hm ⊢] <;>
    · rcases hm with (hf | hc) | he
      · split_ifs at hf with hg1 hg2 hg3
        · rcases List.mem_cons.mp hf with rfl | hf
          · simp
          · have hfm := List.mem_singleton.mp hf
            subst hfm
            simp
        · rcases List.mem_cons.mp hf with rfl | hf
          · simp
          · simp at hf
        · rcases List.mem_cons.mp hf with rfl | hf
          · simp
          · simp at hf
        · simp at hf
      · obtain ⟨nc, hnc, hsome⟩ := List.mem_filterMap.mp hc
        split_ifs at hsome with hg
        · have hme := (Option.some_inj.mp hsome).symm
          subst hme
          simp
      · by_cases hA : g.en_passant_available
        · rw [if_pos hA] at he
          split_ifs at he with hcond
          · have hme : dest = g.en_passant_target := by simpa using he
            subst hme
            exact Or.inl hcond.2.2
          · simp at he
        · rw [if_neg hA] at he
          simp at he

theorem record_capture_board (g : ChessGame) (p : Piece) :
    (record_capture g p).board = g.board := by
  unfold record_capture
  split_ifs <;> rfl

theorem mm_rookflag_stage_board (mv : Piece) (frm : Position) (gE : ChessGame) :
    (mm_rookflag_stage mv frm gE).board = gE.board := by
  unfold mm_rookflag_stage
  split_ifs <;> rfl

theorem valid_move_moving_nonempty (g : ChessGame) (frm dest : Position) (hwf : WF g)
    (hv : is_valid_move g frm dest = true) :
    ¬ ((mm_moving g frm).type = PieceType.EMPTY) := by
  have h := (valid_move_facts g frm dest hwf hv).2.2
  unfold is_piece_at at h
  unfold mm_moving get_piece_at
  simpa using h

theorem mm_is_ep_facts (g : ChessGame) (frm dest : Position)
    (hep : mm_is_ep g frm dest = true) :
    (mm_moving g frm).type = PieceType.PAWN ∧ g.en_passant_available = true := by
  unfold mm_is_ep at hep
  have h := of_decide_eq_true hep
  exact ⟨h.1, h.2.1⟩

theorem ep_cap_cell_bounds (g : ChessGame) (frm dest : Position) (hwf : WF g)
    (hv : is_valid_move g frm dest = true) (hep : mm_is_ep g frm dest = true) :
    is_valid_position (mm_captured_pawn_row g frm dest) dest.col = true := by
  obtain ⟨hpawn, -⟩ := mm_is_ep_facts g frm dest hep
  have hmem := mem_pawn_moves_of_valid g frm dest hv hpawn
  have hrows := pawn_move_rows g frm dest hmem
  obtain ⟨hfb, hdb, -⟩ := valid_move_facts g frm dest hwf hv
  unfold mm_captured_pawn_row mm_moving
  unfold is_valid_position at hfb hdb ⊢
  simp only [decide_eq_true_eq] at hfb hdb ⊢
  by_cases hw : (get_piece_at g frm.row frm.col).color = Color.WHITE <;>
    simp only [hw, if_true, if_false, reduceIte] at hrows ⊢ <;> omega

theorem mm_relocate_stage_board (g : ChessGame) (frm dest : Position) :
    (mm_relocate_stage g frm dest).board =
      boardSet (boardSet
        (if mm_is_ep g frm dest then
          boardSet g.board (mm_captured_pawn_row g frm dest) dest.col emptyPiece
         else g.board)
        dest.row dest.col (mm_moving g frm)) frm.row frm.col emptyPiece := by
  unfold mm_relocate_stage record_capture set_piece_at clear_position
  split_ifs <;> rfl

theorem norm_relocate_stage (g : ChessGame) (frm dest : Position) (hwf : WF g)
    (hv : is_valid_move g frm dest = true) :
    NormBoard (mm_relocate_stage g frm dest).board := by
  obtain ⟨hfb, hdb, -⟩ := valid_move_facts g frm dest hwf hv
  have hmv := valid_move_moving_nonempty g frm dest hwf hv
  have hnb := hwf.1
  rw [mm_relocate_stage_board]
  have hinner : NormBoard (if mm_is_ep g frm dest then
      boardSet g.board (mm_captured_pawn_row g frm dest) dest.col emptyPiece
    else g.board) := by
    split_ifs with hep
    · exact normBoard_set g.board _ _ _ hnb
        (ep_cap_cell_bounds g frm dest hwf hv (by simpa using hep)) (fun _ => rfl)
    · exact hnb
  refine normBoard_set _ _ _ _ ?_ hfb (fun _ => rfl)
  exact normBoard_set _ _ _ _ hinner hdb (fun h => absurd h hmv)

theorem norm_castle_stage (mv : Piece) (frm dest : Position) (gD : ChessGame)
    (hnb : NormBoard gD.board) : NormBoard (mm_castle_stage mv frm dest gD).board := by
  unfold mm_castle_stage
  split_ifs <;>
    (try simp only [clear_position, set_piece_at]) <;>
    first
      | exact hnb
      | (refine normBoard_set _ _ _ _ ?_ (by decide) (fun _ => rfl)
         exact normBoard_set _ _ _ _ hnb (by decide) (fun h => hnb.1 _ _ h))

theorem norm_mm_board_stage (g : ChessGame) (frm dest : Position) (hwf : WF g)
    (hv : is_valid_move g frm dest = true) :
    NormBoard (mm_board_stage g frm dest).board := by
  unfold mm_board_stage
  rw [mm_rookflag_stage_board]
  exact norm_castle_stage _ frm dest _ (norm_relocate_stage g frm dest hwf hv)

theorem make_move_board (choice : PieceType) (g : ChessGame) (frm dest : Position)
    (hv : is_valid_move g frm dest = true) (hp : is_promotion_move g frm dest = false) :
    (make_move choice g frm dest).2.board = (mm_board_stage g frm dest).board := by
  unfold make_move
  rw [if_neg (by simp [hv]), if_neg (by simp [hp])]
  simp only []
  split_ifs <;> rfl

theorem mpm_board_stage_board (g : ChessGame) (frm dest : Position) (pt : PieceType) :
    (mpm_board_stage g frm dest pt).board =
      boardSet (boardSet g.board dest.row dest.col
        ⟨pt, (get_piece_at g frm.row frm.col).color⟩) frm.row frm.col emptyPiece := by
  unfold mpm_board_stage record_capture set_piece_at clear_position
  simp only []
  split_ifs <;> rfl

theorem promo_piece_nonempty (pt : PieceType) (h : is_valid_promotion_piece pt = true) :
    ¬ (pt = PieceType.EMPTY) := by
  cases pt <;> simp_all [is_valid_promotion_piece]

theorem make_promotion_move_board (g : ChessGame) (frm dest : Position) (pt : PieceType)
    (hacc : (make_promotion_move g frm dest pt).1 = true) :
    (make_promotion_move g frm dest pt).2.board = (mpm_board_stage g frm dest pt).board := by
  unfold make_promotion_move at hacc ⊢
  split_ifs at hacc with h1 h2 h3
  rw [if_neg (by simp [h1]), if_neg (by simp [h2]), if_neg (by simp [h3])]
  simp only []
  split_ifs <;> rfl

theorem WF_promo (g : ChessGame) (frm dest : Position) (pt : PieceType) (hwf : WF g)
    (hacc : (make_promotion_move g frm dest pt).1 = true) :
    WF (make_promotion_move g frm dest pt).2 := by
  obtain ⟨hpm, hvp, hv⟩ := make_promotion_move_accepted g frm dest pt hacc
  obtain ⟨hhm, hepa, hept, hfm, -⟩ := make_promotion_move_fields g frm dest pt hacc
  obtain ⟨hfb, hdb, -⟩ := valid_move_facts g frm dest hwf hv
  refine ⟨?_, ?_, ?_, ?_, ?_⟩
  · rw [make_promotion_move_board g frm dest pt hacc, mpm_board_stage_board]
    refine normBoard_set _ _ _ _ ?_ hfb (fun _ => rfl)
    refine normBoard_set _ _ _ _ hwf.1 hdb (fun h => ?_)
    exact absurd (by simpa using h) (promo_piece_nonempty pt hvp)
  · rw [hepa]
    intro h
    cases h
  · intro h
    exact hept
  · rw [hhm]
  · rw [hfm]
    have := hwf.2.2.2.2
    split_ifs <;> omega

theorem WF_preserved_make_move (choice : PieceType) (g : ChessGame)
    (frm dest : Position) (hwf : WF g)
    (hacc : (make_move choice g frm dest).1 = true) :
    WF (make_move choice g frm dest).2 := by
  have hv := make_move_accepted_valid choice g frm dest hacc
  by_cases hp : is_promotion_move g frm dest = true
  · rw [make_move_promo_delegates choice g frm dest hv hp] at hacc ⊢
    exact WF_promo g frm dest choice hwf hacc
  · have hp' : is_promotion_move g frm dest = false := by
      cases h : is_promotion_move g frm dest
      · rfl
      · exact absurd h hp
    obtain ⟨-, hhm, hepa, hept, hfm, -⟩ := make_move_counters choice g frm dest hv hp'
    refine ⟨?_, ?_, ?_, ?_, ?_⟩
    · rw [make_move_board choice g frm dest hv hp']
      exact norm_mm_board_stage g frm dest hwf hv
    · rw [hepa, hept]
      intro h
      have hc : (mm_moving g frm).type = PieceType.PAWN ∧
          (dest.row - frm.row).natAbs = 2 := of_decide_eq_true h
      rw [if_pos hc]
      obtain ⟨hstart, hcol, hrow, hvd⟩ := pawn_double_shape g frm dest
        (mem_pawn_moves_of_valid g frm dest hv hc.1) hc.2
      obtain ⟨hfb, hdb, -⟩ := valid_move_facts g frm dest hwf hv
      unfold is_valid_position at hfb hdb
      simp only [decide_eq_true_eq] at hfb hdb
      simp only []
      by_cases hw : (mm_moving g frm).color = Color.WHITE <;>
        simp only [hw, if_true, if_false, reduceIte] at hstart hrow <;>
        constructor <;> try constructor <;> try constructor
      all_goals omega
    · rw [hepa, hept]
      intro h
      have hc : ¬ ((mm_moving g frm).type = PieceType.PAWN ∧
          (dest.row - frm.row).natAbs = 2) := of_decide_eq_false h
      rw [if_neg hc]
    · rw [hhm]
      have := hwf.2.2.2.1
      split_ifs <;> omega
    · rw [hfm]
      have := hwf.2.2.2.2
      split_ifs <;> omega

theorem norm_backRank (c : Color) (col : Int) :
    (backRank c col).type = PieceType.EMPTY → backRank c col = emptyPiece := by
  unfold backRank
  split_ifs <;> intro h <;> first | rfl | exact absurd h (by simp)

theorem norm_initBoard : NormBoard initBoard := by
  constructor
  · intro r c
    unfold initBoard
    split_ifs <;> intro h <;>
      first
        | rfl
        | exact norm_backRank _ _ h
        | exact absurd h (by simp)
  · intro r c h
    unfold is_valid_position at h
    simp only [decide_eq_false_iff_not] at h
    unfold initBoard
    split_ifs <;> first | rfl | omega

theorem WF_init : WF init_board := by
  refine ⟨norm_initBoard, ?_, ?_, ?_, ?_⟩
  · intro h
    exact absurd h (by decide)
  · intro h
    rfl
  · decide
  · decide

theorem Reachable_WF (g : ChessGame) (h : Reachable g) : WF g := by
  induction h with
  | init => exact WF_init
  | step choice g frm dest hg hacc ih => exact WF_preserved_make_move choice g frm dest ih hacc

end Chess

namespace Chess

theorem digitChar_facts (n : Nat) (h : n ≤ 9) :
    isDigitChar (digitChar n) = true ∧ charDigitVal (digitChar n) = n ∧
    ¬ (digitChar n = ' ') ∧ ¬ (digitChar n = '/') ∧ ¬ (digitChar n ∈ fenPieceChars) := by
  interval_cases n <;> exact ⟨by decide, by decide, by decide, by decide, by decide⟩

theorem piece_char_facts (p : Piece) (h : ¬ (p.type = PieceType.EMPTY)) :
    (piece_to_fen_char p ∈ fenPieceChars) ∧
    isDigitChar (piece_to_fen_char p) = false ∧
    ¬ (piece_to_fen_char p = ' ') ∧ ¬ (piece_to_fen_char p = '/') ∧
    char_to_piece_type (toLowerChar (piece_to_fen_char p)) = p.type ∧
    isUpperChar (piece_to_fen_char p) = decide (p.color = Color.WHITE) := by
  obtain ⟨t, c⟩ := p
  cases t <;> cases c <;> first
    | (exact absurd rfl h)
    | exact ⟨by decide, by decide, by decide, by decide, by decide, by decide⟩

theorem parseNatAux_digits (ds rest : List Char) (acc : Nat)
    (hds : ∀ c ∈ ds, isDigitChar c = true) :
    parseNatAux (ds ++ rest) acc =
      parseNatAux rest (ds.foldl (fun a c => a * 10 + charDigitVal c) acc) := by
  induction ds generalizing acc with
  | nil => rfl
  | cons d ds ih =>
    simp only [List.cons_append, List.foldl_cons]
    conv_lhs => rw [parseNatAux]
    rw [if_pos (hds d (by simp))]
    exact ih _ fun c hc => hds c (by simp [hc])

theorem natDecAux_all_digits (fuel n : Nat) :
    ∀ c ∈ natDecAux fuel n, isDigitChar c = true := by
  induction fuel generalizing n with
  | zero =>
    intro c hc
    cases hc
  | succ fuel ih =>
    intro c hc
    unfold natDecAux at hc
    split_ifs at hc with h
    · cases hc
    · rcases List.mem_append.mp hc with hc | hc
      · exact ih _ c hc
      · have : c = digitChar (n % 10) := List.mem_singleton.mp hc
        subst this
        exact (digitChar_facts _ (by omega)).1

theorem natDec_all_digits (n : Nat) : ∀ c ∈ natDec n, isDigitChar c = true := by
  unfold natDec
  split_ifs with h
  · intro c hc
    have : c = '0' := List.mem_singleton.mp hc
    subst this
    decide
  · exact natDecAux_all_digits n n

theorem natDecAux_foldl (fuel n acc : Nat) (h : n ≤ fuel) :
    (natDecAux fuel n).foldl (fun a c => a * 10 + charDigitVal c) acc =
      acc * 10 ^ (natDecAux fuel n).length + n := by
  induction fuel generalizing n acc with
  | zero =>
    have : n = 0 := by omega
    subst this
    simp [natDecAux]
  | succ fuel ih =>
    unfold natDecAux
    split_ifs with h0
    · subst h0
      simp
    · rw [List.foldl_append, List.length_append]
      rw [ih (n / 10) acc (by omega)]
      simp only [List.foldl_cons, List.foldl_nil, List.length_singleton]
      rw [(digitChar_facts (n % 10) (by omega)).2.1]
      rw [pow_succ]
      have hdm : 10 * (n / 10) + n % 10 = n := Nat.div_add_mod n 10
      ring_nf
      omega

theorem natDec_foldl (n : Nat) :
    (natDec n).foldl (fun a c => a * 10 + charDigitVal c) 0 = n := by
  unfold natDec
  split_ifs with h
  · subst h
    decide
  · rw [natDecAux_foldl n n 0 (le_refl n)]
    simp

theorem natDec_ne_nil (n : Nat) : ¬ (natDec n = []) := by
  unfold natDec
  split_ifs with h
  · simp
  · cases n with
    | zero => exact absurd rfl h
    | succ m =>
      unfold natDecAux
      split_ifs with h2
      · exact h2.elim
      · simp

end Chess

namespace Chess

theorem validateAux_cons_digit (c : Char) (cs : List Char) (s b : Nat)
    (h1 : ¬ c = ' ') (h2 : ¬ c = '/') (h3 : isDigitChar c = true)
    (h4 : 1 ≤ charDigitVal c ∧ charDigitVal c ≤ 8) :
    validateAux (c :: cs) s b = validateAux cs s (b + charDigitVal c) := by
  conv_lhs => rw [validateAux]
  rw [if_neg h1, if_neg h2, if_pos h3]
  simp only []
  rw [if_pos h4]

theorem validateAux_cons_piece (c : Char) (cs : List Char) (s b : Nat)
    (h1 : ¬ c = ' ') (h2 : ¬ c = '/') (h3 : isDigitChar c = false)
    (h4 : c ∈ fenPieceChars) :
    validateAux (c :: cs) s b = validateAux cs s (b + 1) := by
  conv_lhs => rw [validateAux]
  rw [if_neg h1, if_neg h2, if_neg (by simp [h3]), if_pos h4]

theorem validateAux_cons_slash (cs : List Char) (s b : Nat) :
    validateAux ('/' :: cs) s b = validateAux cs (s + 1) b := by
  conv_lhs => rw [validateAux]
  rw [if_neg (by decide), if_pos rfl]

theorem validateAux_encodeRankAux (g : ChessGame) (row : Int) :
    ∀ (fuel ec : Nat) (col : Int) (s b : Nat) (rest : List Char), ec + fuel ≤ 8 →
    validateAux (encodeRankAux g row ec col fuel ++ rest) s b =
      validateAux rest s (b + ec + fuel) := by
  intro fuel
  induction fuel with
  | zero =>
    intro ec col s b rest hle
    simp only [encodeRankAux]
    split_ifs with hec
    · simp only [List.singleton_append]
      rw [validateAux_cons_digit _ _ _ _
        (by have := (digitChar_facts ec (by omega)).2.2.1; exact this)
        (by have := (digitChar_facts ec (by omega)).2.2.2.1; exact this)
        (digitChar_facts ec (by omega)).1
        (by rw [(digitChar_facts ec (by omega)).2.1]; omega)]
      rw [(digitChar_facts ec (by omega)).2.1]
      simp only [Nat.add_zero]
    · have : ec = 0 := by omega
      subst this
      simp only [List.nil_append, Nat.add_zero]
  | succ fuel ih =>
    intro ec col s b rest hle
    simp only [encodeRankAux]
    split_ifs with hemp hec
    · rw [ih (ec + 1) (col + 1) s b rest (by omega)]
      congr 1
      omega
    · have hpf := piece_char_facts (g.board row col) hemp
      simp only [List.cons_append, List.append_assoc, List.singleton_append]
      rw [validateAux_cons_digit _ _ _ _
        (by have := (digitChar_facts ec (by omega)).2.2.1; exact this)
        (by have := (digitChar_facts ec (by omega)).2.2.2.1; exact this)
        (digitChar_facts ec (by omega)).1
        (by rw [(digitChar_facts ec (by omega)).2.1]; omega)]
      rw [(digitChar_facts ec (by omega)).2.1]
      simp only [List.nil_append]
      rw [validateAux_cons_piece _ _ _ _ hpf.2.2.1 hpf.2.2.2.1 hpf.2.1 hpf.1]
      rw [ih 0 (col + 1) s (b + ec + 1) rest (by omega)]
      congr 1
      omega
    · have hpf := piece_char_facts (g.board row col) hemp
      have : ec = 0 := by omega
      subst this
      simp only [List.nil_append, List.cons_append, List.append_assoc]
      rw [validateAux_cons_piece _ _ _ _ hpf.2.2.1 hpf.2.2.2.1 hpf.2.1 hpf.1]
      rw [ih 0 (col + 1) s (b + 1) rest (by omega)]
      congr 1
      omega

theorem validateAux_boardFen (g : ChessGame) (rest : List Char) :
    validateAux (boardFen g ++ rest) 0 0 = validateAux rest 7 64 := by
  unfold boardFen encodeRank
  simp only [List.append_assoc, List.cons_append]
  rw [validateAux_encodeRankAux g 0 8 0 0 0 0 _ (by omega)]
  rw [validateAux_cons_slash]
  rw [validateAux_encodeRankAux g 1 8 0 0 _ _ _ (by omega)]
  rw [validateAux_cons_slash]
  rw [validateAux_encodeRankAux g 2 8 0 0 _ _ _ (by omega)]
  rw [validateAux_cons_slash]
  rw [validateAux_encodeRankAux g 3 8 0 0 _ _ _ (by omega)]
  rw [validateAux_cons_slash]
  rw [validateAux_encodeRankAux g 4 8 0 0 _ _ _ (by omega)]
  rw [validateAux_cons_slash]
  rw [validateAux_encodeRankAux g 5 8 0 0 _ _ _ (by omega)]
  rw [validateAux_cons_slash]
  rw [validateAux_encodeRankAux g 6 8 0 0 _ _ _ (by omega)]
  rw [validateAux_cons_slash]
  rw [validateAux_encodeRankAux g 7 8 0 0 _ _ _ (by omega)]

theorem validate_board_to_fen (g : ChessGame) :
    validate_fen_string (board_to_fen g) = true := by
  unfold validate_fen_string board_to_fen
  rw [if_neg]
  · rw [show boardFen g ++ ' ' :: (if g.current_player = Color.WHITE then 'w' else 'b') :: ' ' ::
        (castlingFen g ++ ' ' :: (epFen g ++ ' ' ::
          (intDec g.halfmove_clock ++ ' ' :: intDec g.fullmove_number))) =
        boardFen g ++ (' ' :: (if g.current_player = Color.WHITE then 'w' else 'b') :: ' ' ::
        (castlingFen g ++ ' ' :: (epFen g ++ ' ' ::
          (intDec g.halfmove_clock ++ ' ' :: intDec g.fullmove_number)))) from rfl]
    rw [validateAux_boardFen]
    rw [show validateAux (' ' :: (if g.current_player = Color.WHITE then 'w' else 'b') :: ' ' ::
        (castlingFen g ++ ' ' :: (epFen g ++ ' ' ::
          (intDec g.halfmove_clock ++ ' ' :: intDec g.fullmove_number)))) 7 64 =
        some (7, 64, ' ' :: (if g.current_player = Color.WHITE then 'w' else 'b') :: ' ' ::
        (castlingFen g ++ ' ' :: (epFen g ++ ' ' ::
          (intDec g.halfmove_clock ++ ' ' :: intDec g.fullmove_number)))) from by
      conv_lhs => rw [validateAux]
      rw [if_pos rfl]]
    simp
  · intro h
    have := congrArg List.length h
    simp at this

end Chess

namespace Chess

theorem parseBoardAux_cons_space (cs : List Char) (row col : Int)
    (b : Int → Int → Piece) (wk bk : Position) :
    parseBoardAux (' ' :: cs) row col b wk bk = (b, wk, bk, ' ' :: cs) := by
  conv_lhs => rw [parseBoardAux]
  rw [if_pos (Or.inl rfl)]

theorem parseBoardAux_cons_slash (cs : List Char) (row col : Int)
    (b : Int → Int → Piece) (wk bk : Position) (hr8 : row < 8) :
    parseBoardAux ('/' :: cs) row col b wk bk = parseBoardAux cs (row + 1) 0 b wk bk := by
  conv_lhs => rw [parseBoardAux]
  rw [if_neg (by simp [hr8]), if_pos rfl]

theorem parseBoardAux_cons_digit (c : Char) (cs : List Char) (row col : Int)
    (b : Int → Int → Piece) (wk bk : Position) (hr8 : row < 8)
    (h1 : ¬ c = ' ') (h2 : ¬ c = '/') (h3 : isDigitChar c = true) :
    parseBoardAux (c :: cs) row col b wk bk =
      parseBoardAux cs row (col + charDigitVal c) b wk bk := by
  conv_lhs => rw [parseBoardAux]
  rw [if_neg (by simp [h1, hr8]), if_neg h2, if_pos h3]

theorem parseBoardAux_cons_piece (c : Char) (cs : List Char) (row col : Int)
    (b : Int → Int → Piece) (wk bk : Position) (p : Piece)
    (hr8 : row < 8) (hcol : col < 8)
    (hc : c = piece_to_fen_char p) (hp : ¬ p.type = PieceType.EMPTY) :
    parseBoardAux (c :: cs) row col b wk bk =
      parseBoardAux cs row (col + 1) (boardSet b row col p)
        (if p.type = PieceType.KING ∧ p.color = Color.WHITE then (⟨row, col⟩ : Position) else wk)
        (if p.type = PieceType.KING ∧ p.color = Color.BLACK then (⟨row, col⟩ : Position)
          else bk) := by
  subst hc
  have hpf := piece_char_facts p hp
  have hpt : char_to_piece_type (toLowerChar (piece_to_fen_char p)) = p.type := hpf.2.2.2.2.1
  have hpc : (if isUpperChar (piece_to_fen_char p) then Color.WHITE else Color.BLACK) =
      p.color := by
    rw [hpf.2.2.2.2.2]
    cases hcc : p.color
    · simp [hcc]
    · simp [hcc]
  conv_lhs => rw [parseBoardAux]
  rw [if_neg (by simp [hpf.2.2.1, hr8]), if_neg hpf.2.2.2.1,
    if_neg (by simp [hpf.2.1])]
  simp only [hpt, hpc]
  rw [if_pos ⟨hr8, hcol⟩]

end Chess

namespace Chess

theorem parseBoardAux_encodeRankAux (g : ChessGame) (row : Int)
    (hr0 : 0 ≤ row) (hr8 : row < 8) :
    ∀ (fuel ec : Nat) (cstart : Int) (b : Int → Int → Piece) (wk bk : Position)
      (rest : List Char),
      (ec : Int) ≤ cstart → cstart + (fuel : Int) ≤ 8 →
      ∃ wk' bk',
        parseBoardAux (encodeRankAux g row ec cstart fuel ++ rest) row (cstart - (ec : Int))
            b wk bk =
          parseBoardAux rest row (cstart + (fuel : Int))
            (fun r2 c2 => if r2 = row ∧ cstart ≤ c2 ∧ c2 < cstart + (fuel : Int) ∧
                ¬ (g.board row c2).type = PieceType.EMPTY then g.board row c2 else b r2 c2)
            wk' bk' ∧
        (0 ≤ wk.row → 0 ≤ wk'.row) ∧ (0 ≤ bk.row → 0 ≤ bk'.row) ∧
        ((∃ c2 : Int, cstart ≤ c2 ∧ c2 < cstart + (fuel : Int) ∧
            g.board row c2 = ⟨PieceType.KING, Color.WHITE⟩) → 0 ≤ wk'.row) ∧
        ((∃ c2 : Int, cstart ≤ c2 ∧ c2 < cstart + (fuel : Int) ∧
            g.board row c2 = ⟨PieceType.KING, Color.BLACK⟩) → 0 ≤ bk'.row) := by
  intro fuel
  induction fuel with
  | zero =>
    intro ec cstart b wk bk rest hec hle
    refine ⟨wk, bk, ?_, fun h => h, fun h => h, ?_, ?_⟩
    · have hb : (fun r2 c2 => if r2 = row ∧ cstart ≤ c2 ∧ c2 < cstart + ((0 : Nat) : Int) ∧
          ¬ (g.board row c2).type = PieceType.EMPTY then g.board row c2 else b r2 c2) = b := by
        funext r2 c2
        rw [if_neg]
        rintro ⟨_, h1, h2, _⟩
        push_cast at h2
        omega
      rw [hb]
      simp only [encodeRankAux]
      split_ifs with hpos
      · rw [List.singleton_append,
          parseBoardAux_cons_digit _ _ _ _ _ _ _ hr8
            ((digitChar_facts ec (by omega)).2.2.1)
            ((digitChar_facts ec (by omega)).2.2.2.1)
            ((digitChar_facts ec (by omega)).1),
          (digitChar_facts ec (by omega)).2.1,
          show cstart - (ec : Int) + (ec : Int) = cstart + ((0 : Nat) : Int) from by
            push_cast
            ring]
      · have h0 : ec = 0 := by omega
        subst h0
        simp only [List.nil_append]
        rw [show cstart - ((0 : Nat) : Int) = cstart + ((0 : Nat) : Int) from by
          push_cast
          ring]
    · rintro ⟨c2, hA, hB, _⟩
      push_cast at hB
      omega
    · rintro ⟨c2, hA, hB, _⟩
      push_cast at hB
      omega
  | succ fuel ih =>
    intro ec cstart b wk bk rest hec hle
    have hcs8 : cstart < 8 := by omega
    simp only [encodeRankAux]
    split_ifs with hemp hpos
    · obtain ⟨wk', bk', heq, hm1, hm2, hf1, hf2⟩ :=
        ih (ec + 1) (cstart + 1) b wk bk rest (by push_cast; omega) (by push_cast at hle ⊢; omega)
      rw [show cstart + 1 - (((ec : Nat) + 1 : Nat) : Int) = cstart - (ec : Int) from by
        push_cast
        ring] at heq
      refine ⟨wk', bk', ?_, hm1, hm2, ?_, ?_⟩
      · rw [heq,
          show cstart + 1 + (fuel : Int) = cstart + ((fuel + 1 : Nat) : Int) from by
            push_cast
            ring]
        congr 1
        funext rr cc
        by_cases hA : rr = row ∧ cstart + 1 ≤ cc ∧ cc < cstart + ((fuel + 1 : Nat) : Int) ∧
            ¬ (g.board row cc).type = PieceType.EMPTY
        · rcases hA with ⟨ha1, ha2, ha3, ha4⟩
          rw [if_pos ((⟨ha1, ha2, ha3, ha4⟩ :
              rr = row ∧ cstart + 1 ≤ cc ∧ cc < cstart + ((fuel + 1 : Nat) : Int) ∧
                ¬ (g.board row cc).type = PieceType.EMPTY)),
            if_pos ((⟨ha1, by omega, ha3, ha4⟩ :
              rr = row ∧ cstart ≤ cc ∧ cc < cstart + ((fuel + 1 : Nat) : Int) ∧
                ¬ (g.board row cc).type = PieceType.EMPTY))]
        · by_cases hB : rr = row ∧ cstart ≤ cc ∧ cc < cstart + ((fuel + 1 : Nat) : Int) ∧
              ¬ (g.board row cc).type = PieceType.EMPTY
          · rcases hB with ⟨hb1, hb2, hb3, hb4⟩
            by_cases hcc : cc = cstart
            · rw [hcc] at hb4
              exact absurd hemp hb4
            · exact absurd ⟨hb1, by omega, hb3, hb4⟩ hA
          · rw [if_neg hA, if_neg hB]
      · rintro ⟨c2, hA2, hB2, hk⟩
        by_cases hcc : c2 = cstart
        · subst hcc
          rw [hk] at hemp
          simp at hemp
        · exact hf1 ⟨c2, by omega, by push_cast at hB2 ⊢; omega, hk⟩
      · rintro ⟨c2, hA2, hB2, hk⟩
        by_cases hcc : c2 = cstart
        · subst hcc
          rw [hk] at hemp
          simp at hemp
        · exact hf2 ⟨c2, by omega, by push_cast at hB2 ⊢; omega, hk⟩
    · have hpf := piece_char_facts (g.board row cstart) hemp
      obtain ⟨wk', bk', heq, hm1, hm2, hf1, hf2⟩ :=
        ih 0 (cstart + 1) (boardSet b row cstart (g.board row cstart))
          (if (g.board row cstart).type = PieceType.KING ∧
              (g.board row cstart).color = Color.WHITE then (⟨row, cstart⟩ : Position) else wk)
          (if (g.board row cstart).type = PieceType.KING ∧
              (g.board row cstart).color = Color.BLACK then (⟨row, cstart⟩ : Position) else bk)
          rest (by push_cast; omega) (by push_cast at hle ⊢; omega)
      rw [show cstart + 1 - (((0 : Nat)) : Int) = cstart + 1 from by push_cast; ring] at heq
      refine ⟨wk', bk', ?_, ?_, ?_, ?_, ?_⟩
      · simp only [List.cons_append, List.nil_append, List.singleton_append,
          List.append_assoc]
        rw [parseBoardAux_cons_digit _ _ _ _ _ _ _ hr8
            ((digitChar_facts ec (by omega)).2.2.1)
            ((digitChar_facts ec (by omega)).2.2.2.1)
            ((digitChar_facts ec (by omega)).1),
          (digitChar_facts ec (by omega)).2.1,
          show cstart - (ec : Int) + (ec : Int) = cstart from by ring,
          parseBoardAux_cons_piece _ _ _ _ _ _ _ (g.board row cstart) hr8 hcs8 rfl hemp,
          heq,
          show cstart + 1 + (fuel : Int) = cstart + ((fuel + 1 : Nat) : Int) from by
            push_cast
            ring]
        congr 1
        funext rr cc
        simp only [boardSet]
        by_cases hA : rr = row ∧ cstart + 1 ≤ cc ∧ cc < cstart + ((fuel + 1 : Nat) : Int) ∧
            ¬ (g.board row cc).type = PieceType.EMPTY
        · rcases hA with ⟨ha1, ha2, ha3, ha4⟩
          rw [if_pos ((⟨ha1, ha2, ha3, ha4⟩ :
              rr = row ∧ cstart + 1 ≤ cc ∧ cc < cstart + ((fuel + 1 : Nat) : Int) ∧
                ¬ (g.board row cc).type = PieceType.EMPTY)),
            if_pos ((⟨ha1, by omega, ha3, ha4⟩ :
              rr = row ∧ cstart ≤ cc ∧ cc < cstart + ((fuel + 1 : Nat) : Int) ∧
                ¬ (g.board row cc).type = PieceType.EMPTY))]
        · by_cases hB : rr = row ∧ cstart ≤ cc ∧ cc < cstart + ((fuel + 1 : Nat) : Int) ∧
              ¬ (g.board row cc).type = PieceType.EMPTY
          · rcases hB with ⟨hb1, hb2, hb3, hb4⟩
            rw [if_neg hA, if_pos ((⟨hb1, hb2, hb3, hb4⟩ :
              rr = row ∧ cstart ≤ cc ∧ cc < cstart + ((fuel + 1 : Nat) : Int) ∧
                ¬ (g.board row cc).type = PieceType.EMPTY))]
            by_cases hcc : cc = cstart
            · rw [if_pos ((⟨hb1, hcc⟩ : rr = row ∧ cc = cstart)), hcc]
            · exact absurd ⟨hb1, by omega, hb3, hb4⟩ hA
          · rw [if_neg hA, if_neg hB, if_neg]
            rintro ⟨h1, h2⟩
            apply hB
            refine ⟨h1, by omega, by push_cast; omega, ?_⟩
            rw [h2]
            exact hemp
      · intro h
        apply hm1
        split_ifs
        · exact hr0
        · exact h
      · intro h
        apply hm2
        split_ifs
        · exact hr0
        · exact h
      · rintro ⟨c2, hA2, hB2, hk⟩
        by_cases hcc : c2 = cstart
        · subst hcc
          apply hm1
          rw [hk]
          simpa using hr0
        · exact hf1 ⟨c2, by omega, by push_cast at hB2 ⊢; omega, hk⟩
      · rintro ⟨c2, hA2, hB2, hk⟩
        by_cases hcc : c2 = cstart
        · subst hcc
          apply hm2
          rw [hk]
          simpa using hr0
        · exact hf2 ⟨c2, by omega, by push_cast at hB2 ⊢; omega, hk⟩
    · have hpf := piece_char_facts (g.board row cstart) hemp
      have h0 : ec = 0 := by omega
      subst h0
      obtain ⟨wk', bk', heq, hm1, hm2, hf1, hf2⟩ :=
        ih 0 (cstart + 1) (boardSet b row cstart (g.board row cstart))
          (if (g.board row cstart).type = PieceType.KING ∧
              (g.board row cstart).color = Color.WHITE then (⟨row, cstart⟩ : Position) else wk)
          (if (g.board row cstart).type = PieceType.KING ∧
              (g.board row cstart).color = Color.BLACK then (⟨row, cstart⟩ : Position) else bk)
          rest (by push_cast; omega) (by push_cast at hle ⊢; omega)
      rw [show cstart + 1 - (((0 : Nat)) : Int) = cstart + 1 from by push_cast; ring] at heq
      refine ⟨wk', bk', ?_, ?_, ?_, ?_, ?_⟩
      · simp only [List.cons_append, List.nil_append, List.singleton_append,
          List.append_assoc]
        rw [show cstart - (((0 : Nat)) : Int) = cstart from by push_cast; ring,
          parseBoardAux_cons_piece _ _ _ _ _ _ _ (g.board row cstart) hr8 hcs8 rfl hemp,
          heq,
          show cstart + 1 + (fuel : Int) = cstart + ((fuel + 1 : Nat) : Int) from by
            push_cast
            ring]
        congr 1
        funext rr cc
        simp only [boardSet]
        by_cases hA : rr = row ∧ cstart + 1 ≤ cc ∧ cc < cstart + ((fuel + 1 : Nat) : Int) ∧
            ¬ (g.board row cc).type = PieceType.EMPTY
        · rcases hA with ⟨ha1, ha2, ha3, ha4⟩
          rw [if_pos ((⟨ha1, ha2, ha3, ha4⟩ :
              rr = row ∧ cstart + 1 ≤ cc ∧ cc < cstart + ((fuel + 1 : Nat) : Int) ∧
                ¬ (g.board row cc).type = PieceType.EMPTY)),
            if_pos ((⟨ha1, by omega, ha3, ha4⟩ :
              rr = row ∧ cstart ≤ cc ∧ cc < cstart + ((fuel + 1 : Nat) : Int) ∧
                ¬ (g.board row cc).type = PieceType.EMPTY))]
        · by_cases hB : rr = row ∧ cstart ≤ cc ∧ cc < cstart + ((fuel + 1 : Nat) : Int) ∧
              ¬ (g.board row cc).type = PieceType.EMPTY
          · rcases hB with ⟨hb1, hb2, hb3, hb4⟩
            rw [if_neg hA, if_pos ((⟨hb1, hb2, hb3, hb4⟩ :
              rr = row ∧ cstart ≤ cc ∧ cc < cstart + ((fuel + 1 : Nat) : Int) ∧
                ¬ (g.board row cc).type = PieceType.EMPTY))]
            by_cases hcc : cc = cstart
            · rw [if_pos ((⟨hb1, hcc⟩ : rr = row ∧ cc = cstart)), hcc]
            · exact absurd ⟨hb1, by omega, hb3, hb4⟩ hA
          · rw [if_neg hA, if_neg hB, if_neg]
            rintro ⟨h1, h2⟩
            apply hB
            refine ⟨h1, by omega, by push_cast; omega, ?_⟩
            rw [h2]
            exact hemp
      · intro h
        apply hm1
        split_ifs
        · exact hr0
        · exact h
      · intro h
        apply hm2
        split_ifs
        · exact hr0
        · exact h
      · rintro ⟨c2, hA2, hB2, hk⟩
        by_cases hcc : c2 = cstart
        · subst hcc
          apply hm1
          rw [hk]
          simpa using hr0
        · exact hf1 ⟨c2, by omega, by push_cast at hB2 ⊢; omega, hk⟩
      · rintro ⟨c2, hA2, hB2, hk⟩
        by_cases hcc : c2 = cstart
        · subst hcc
          apply hm2
          rw [hk]
          simpa using hr0
        · exact hf2 ⟨c2, by omega, by push_cast at hB2 ⊢; omega, hk⟩

end Chess

namespace Chess

theorem parseBoardAux_rank (g : ChessGame) (row : Int) (hr0 : 0 ≤ row) (hr8 : row < 8)
    (b : Int → Int → Piece) (wk bk : Position) (cs : List Char) :
    ∃ wk' bk',
      parseBoardAux (encodeRankAux g row 0 0 8 ++ cs) row 0 b wk bk =
        parseBoardAux cs row 8
          (fun r2 c2 => if r2 = row ∧ 0 ≤ c2 ∧ c2 < 8 ∧
              ¬ (g.board row c2).type = PieceType.EMPTY then g.board row c2 else b r2 c2)
          wk' bk' ∧
      (0 ≤ wk.row → 0 ≤ wk'.row) ∧ (0 ≤ bk.row → 0 ≤ bk'.row) ∧
      ((∃ c2 : Int, 0 ≤ c2 ∧ c2 < 8 ∧
          g.board row c2 = ⟨PieceType.KING, Color.WHITE⟩) → 0 ≤ wk'.row) ∧
      ((∃ c2 : Int, 0 ≤ c2 ∧ c2 < 8 ∧
          g.board row c2 = ⟨PieceType.KING, Color.BLACK⟩) → 0 ≤ bk'.row) := by
  obtain ⟨wk', bk', heq, hm1, hm2, hf1, hf2⟩ :=
    parseBoardAux_encodeRankAux g row hr0 hr8 8 0 0 b wk bk cs (by norm_num) (by norm_num)
  rw [show (0 : Int) - ((0 : Nat) : Int) = 0 from by norm_num,
    show (0 : Int) + ((8 : Nat) : Int) = 8 from by norm_num] at heq
  refine ⟨wk', bk', heq, hm1, hm2, ?_, ?_⟩
  · rintro ⟨c2, h1, h2, h3⟩
    exact hf1 ⟨c2, h1, by push_cast; omega, h3⟩
  · rintro ⟨c2, h1, h2, h3⟩
    exact hf2 ⟨c2, h1, by push_cast; omega, h3⟩

end Chess

namespace Chess

theorem hasKing_iff (g : ChessGame) (color : Color) :
    hasKing g color = true ↔ ∃ r c : Int, 0 ≤ r ∧ r < 8 ∧ 0 ≤ c ∧ c < 8 ∧
      g.board r c = ⟨PieceType.KING, color⟩ := by
  simp only [hasKing, List.any_eq_true, List.mem_range, decide_eq_true_eq]
  constructor
  · rintro ⟨r, hr, c, hc, hk⟩
    exact ⟨(r : Int), (c : Int), by omega, by omega, by omega, by omega, hk⟩
  · rintro ⟨r, c, h1, h2, h3, h4, hk⟩
    refine ⟨r.toNat, by omega, c.toNat, by omega, ?_⟩
    rw [Int.toNat_of_nonneg h1, Int.toNat_of_nonneg h3]
    exact hk

theorem parseBoardAux_boardFen (g : ChessGame) (rest : List Char)
    (hn : NormBoard g.board) :
    ∃ wk' bk',
      parseBoardAux (boardFen g ++ ' ' :: rest) 0 0 (fun _ _ => emptyPiece)
          (⟨-1, -1⟩ : Position) (⟨-1, -1⟩ : Position) =
        (g.board, wk', bk', ' ' :: rest) ∧
      (hasKing g Color.WHITE = true → 0 ≤ wk'.row) ∧
      (hasKing g Color.BLACK = true → 0 ≤ bk'.row) := by
  obtain ⟨wk1, bk1, heq1, hm11, hm21, hf11, hf21⟩ :=
    parseBoardAux_rank g 0 (by norm_num) (by norm_num) (fun _ _ => emptyPiece)
      (⟨-1, -1⟩ : Position) (⟨-1, -1⟩ : Position) ('/' :: (encodeRankAux g 1 0 0 8 ++ ('/' :: (encodeRankAux g 2 0 0 8 ++ ('/' :: (encodeRankAux g 3 0 0 8 ++ ('/' :: (encodeRankAux g 4 0 0 8 ++ ('/' :: (encodeRankAux g 5 0 0 8 ++ ('/' :: (encodeRankAux g 6 0 0 8 ++ ('/' :: (encodeRankAux g 7 0 0 8 ++ (' ' :: rest)))))))))))))))
  obtain ⟨wk2, bk2, heq2, hm12, hm22, hf12, hf22⟩ :=
    parseBoardAux_rank g 1 (by norm_num) (by norm_num)
      (fun r2 c2 => if r2 = 0 ∧ 0 ≤ c2 ∧ c2 < 8 ∧ ¬ (g.board 0 c2).type = PieceType.EMPTY then g.board 0 c2 else (fun _ _ => emptyPiece) r2 c2)
      wk1 bk1 ('/' :: (encodeRankAux g 2 0 0 8 ++ ('/' :: (encodeRankAux g 3 0 0 8 ++ ('/' :: (encodeRankAux g 4 0 0 8 ++ ('/' :: (encodeRankAux g 5 0 0 8 ++ ('/' :: (encodeRankAux g 6 0 0 8 ++ ('/' :: (encodeRankAux g 7 0 0 8 ++ (' ' :: rest)))))))))))))
  obtain ⟨wk3, bk3, heq3, hm13, hm23, hf13, hf23⟩ :=
    parseBoardAux_rank g 2 (by norm_num) (by norm_num)
      (fun r2 c2 => if r2 = 1 ∧ 0 ≤ c2 ∧ c2 < 8 ∧ ¬ (g.board 1 c2).type = PieceType.EMPTY then g.board 1 c2 else (fun r2 c2 => if r2 = 0 ∧ 0 ≤ c2 ∧ c2 < 8 ∧ ¬ (g.board 0 c2).type = PieceType.EMPTY then g.board 0 c2 else (fun _ _ => emptyPiece) r2 c2) r2 c2)
      wk2 bk2 ('/' :: (encodeRankAux g 3 0 0 8 ++ ('/' :: (encodeRankAux g 4 0 0 8 ++ ('/' :: (encodeRankAux g 5 0 0 8 ++ ('/' :: (encodeRankAux g 6 0 0 8 ++ ('/' :: (encodeRankAux g 7 0 0 8 ++ (' ' :: rest)))))))))))
  obtain ⟨wk4, bk4, heq4, hm14, hm24, hf14, hf24⟩ :=
    parseBoardAux_rank g 3 (by norm_num) (by norm_num)
      (fun r2 c2 => if r2 = 2 ∧ 0 ≤ c2 ∧ c2 < 8 ∧ ¬ (g.board 2 c2).type = PieceType.EMPTY then g.board 2 c2 else (fun r2 c2 => if r2 = 1 ∧ 0 ≤ c2 ∧ c2 < 8 ∧ ¬ (g.board 1 c2).type = PieceType.EMPTY then g.board 1 c2 else (fun r2 c2 => if r2 = 0 ∧ 0 ≤ c2 ∧ c2 < 8 ∧ ¬ (g.board 0 c2).type = PieceType.EMPTY then g.board 0 c2 else (fun _ _ => emptyPiece) r2 c2) r2 c2) r2 c2)
      wk3 bk3 ('/' :: (encodeRankAux g 4 0 0 8 ++ ('/' :: (encodeRankAux g 5 0 0 8 ++ ('/' :: (encodeRankAux g 6 0 0 8 ++ ('/' :: (encodeRankAux g 7 0 0 8 ++ (' ' :: rest)))))))))
  obtain ⟨wk5, bk5, heq5, hm15, hm25, hf15, hf25⟩ :=
    parseBoardAux_rank g 4 (by norm_num) (by norm_num)
      (fun r2 c2 => if r2 = 3 ∧ 0 ≤ c2 ∧ c2 < 8 ∧ ¬ (g.board 3 c2).type = PieceType.EMPTY then g.board 3 c2 else (fun r2 c2 => if r2 = 2 ∧ 0 ≤ c2 ∧ c2 < 8 ∧ ¬ (g.board 2 c2).type = PieceType.EMPTY then g.board 2 c2 else (fun r2 c2 => if r2 = 1 ∧ 0 ≤ c2 ∧ c2 < 8 ∧ ¬ (g.board 1 c2).type = PieceType.EMPTY then g.board 1 c2 else (fun r2 c2 => if r2 = 0 ∧ 0 ≤ c2 ∧ c2 < 8 ∧ ¬ (g.board 0 c2).type = PieceType.EMPTY then g.board 0 c2 else (fun _ _ => emptyPiece) r2 c2) r2 c2) r2 c2) r2 c2)
      wk4 bk4 ('/' :: (encodeRankAux g 5 0 0 8 ++ ('/' :: (encodeRankAux g 6 0 0 8 ++ ('/' :: (encodeRankAux g 7 0 0 8 ++ (' ' :: rest)))))))
  obtain ⟨wk6, bk6, heq6, hm16, hm26, hf16, hf26⟩ :=
    parseBoardAux_rank g 5 (by norm_num) (by norm_num)
      (fun r2 c2 => if r2 = 4 ∧ 0 ≤ c2 ∧ c2 < 8 ∧ ¬ (g.board 4 c2).type = PieceType.EMPTY then g.board 4 c2 else (fun r2 c2 => if r2 = 3 ∧ 0 ≤ c2 ∧ c2 < 8 ∧ ¬ (g.board 3 c2).type = PieceType.EMPTY then g.board 3 c2 else (fun r2 c2 => if r2 = 2 ∧ 0 ≤ c2 ∧ c2 < 8 ∧ ¬ (g.board 2 c2).type = PieceType.EMPTY then g.board 2 c2 else (fun r2 c2 => if r2 = 1 ∧ 0 ≤ c2 ∧ c2 < 8 ∧ ¬ (g.board 1 c2).type = PieceType.EMPTY then g.board 1 c2 else (fun r2 c2 => if r2 = 0 ∧ 0 ≤ c2 ∧ c2 < 8 ∧ ¬ (g.board 0 c2).type = PieceType.EMPTY then g.board 0 c2 else (fun _ _ => emptyPiece) r2 c2) r2 c2) r2 c2) r2 c2) r2 c2)
      wk5 bk5 ('/' :: (encodeRankAux g 6 0 0 8 ++ ('/' :: (encodeRankAux g 7 0 0 8 ++ (' ' :: rest)))))
  obtain ⟨wk7, bk7, heq7, hm17, hm27, hf17, hf27⟩ :=
    parseBoardAux_rank g 6 (by norm_num) (by norm_num)
      (fun r2 c2 => if r2 = 5 ∧ 0 ≤ c2 ∧ c2 < 8 ∧ ¬ (g.board 5 c2).type = PieceType.EMPTY then g.board 5 c2 else (fun r2 c2 => if r2 = 4 ∧ 0 ≤ c2 ∧ c2 < 8 ∧ ¬ (g.board 4 c2).type = PieceType.EMPTY then g.board 4 c2 else (fun r2 c2 => if r2 = 3 ∧ 0 ≤ c2 ∧ c2 < 8 ∧ ¬ (g.board 3 c2).type = PieceType.EMPTY then g.board 3 c2 else (fun r2 c2 => if r2 = 2 ∧ 0 ≤ c2 ∧ c2 < 8 ∧ ¬ (g.board 2 c2).type = PieceType.EMPTY then g.board 2 c2 else (fun r2 c2 => if r2 = 1 ∧ 0 ≤ c2 ∧ c2 < 8 ∧ ¬ (g.board 1 c2).type = PieceType.EMPTY then g.board 1 c2 else (fun r2 c2 => if r2 = 0 ∧ 0 ≤ c2 ∧ c2 < 8 ∧ ¬ (g.board 0 c2).type = PieceType.EMPTY then g.board 0 c2 else (fun _ _ => emptyPiece) r2 c2) r2 c2) r2 c2) r2 c2) r2 c2) r2 c2)
      wk6 bk6 ('/' :: (encodeRankAux g 7 0 0 8 ++ (' ' :: rest)))
  obtain ⟨wk8, bk8, heq8, hm18, hm28, hf18, hf28⟩ :=
    parseBoardAux_rank g 7 (by norm_num) (by norm_num)
      (fun r2 c2 => if r2 = 6 ∧ 0 ≤ c2 ∧ c2 < 8 ∧ ¬ (g.board 6 c2).type = PieceType.EMPTY then g.board 6 c2 else (fun r2 c2 => if r2 = 5 ∧ 0 ≤ c2 ∧ c2 < 8 ∧ ¬ (g.board 5 c2).type = PieceType.EMPTY then g.board 5 c2 else (fun r2 c2 => if r2 = 4 ∧ 0 ≤ c2 ∧ c2 < 8 ∧ ¬ (g.board 4 c2).type = PieceType.EMPTY then g.board 4 c2 else (fun r2 c2 => if r2 = 3 ∧ 0 ≤ c2 ∧ c2 < 8 ∧ ¬ (g.board 3 c2).type = PieceType.EMPTY then g.board 3 c2 else (fun r2 c2 => if r2 = 2 ∧ 0 ≤ c2 ∧ c2 < 8 ∧ ¬ (g.board 2 c2).type = PieceType.EMPTY then g.board 2 c2 else (fun r2 c2 => if r2 = 1 ∧ 0 ≤ c2 ∧ c2 < 8 ∧ ¬ (g.board 1 c2).type = PieceType.EMPTY then g.board 1 c2 else (fun r2 c2 => if r2 = 0 ∧ 0 ≤ c2 ∧ c2 < 8 ∧ ¬ (g.board 0 c2).type = PieceType.EMPTY then g.board 0 c2 else (fun _ _ => emptyPiece) r2 c2) r2 c2) r2 c2) r2 c2) r2 c2) r2 c2) r2 c2)
      wk7 bk7 (' ' :: rest)
  refine ⟨wk8, bk8, ?_, ?_, ?_⟩
  · unfold boardFen encodeRank
    simp only [List.append_assoc, List.cons_append]
    rw [heq1]
    rw [parseBoardAux_cons_slash _ _ _ _ _ _ (by norm_num),
      show (0 : Int) + 1 = 1 from by norm_num]
    rw [heq2]
    rw [parseBoardAux_cons_slash _ _ _ _ _ _ (by norm_num),
      show (1 : Int) + 1 = 2 from by norm_num]
    rw [heq3]
    rw [parseBoardAux_cons_slash _ _ _ _ _ _ (by norm_num),
      show (2 : Int) + 1 = 3 from by norm_num]
    rw [heq4]
    rw [parseBoardAux_cons_slash _ _ _ _ _ _ (by norm_num),
      show (3 : Int) + 1 = 4 from by norm_num]
    rw [heq5]
    rw [parseBoardAux_cons_slash _ _ _ _ _ _ (by norm_num),
      show (4 : Int) + 1 = 5 from by norm_num]
    rw [heq6]
    rw [parseBoardAux_cons_slash _ _ _ _ _ _ (by norm_num),
      show (5 : Int) + 1 = 6 from by norm_num]
    rw [heq7]
    rw [parseBoardAux_cons_slash _ _ _ _ _ _ (by norm_num),
      show (6 : Int) + 1 = 7 from by norm_num]
    rw [heq8]
    rw [parseBoardAux_cons_space]
    have hB : (fun r2 c2 => if r2 = 7 ∧ 0 ≤ c2 ∧ c2 < 8 ∧ ¬ (g.board 7 c2).type = PieceType.EMPTY then g.board 7 c2 else (fun r2 c2 => if r2 = 6 ∧ 0 ≤ c2 ∧ c2 < 8 ∧ ¬ (g.board 6 c2).type = PieceType.EMPTY then g.board 6 c2 else (fun r2 c2 => if r2 = 5 ∧ 0 ≤ c2 ∧ c2 < 8 ∧ ¬ (g.board 5 c2).type = PieceType.EMPTY then g.board 5 c2 else (fun r2 c2 => if r2 = 4 ∧ 0 ≤ c2 ∧ c2 < 8 ∧ ¬ (g.board 4 c2).type = PieceType.EMPTY then g.board 4 c2 else (fun r2 c2 => if r2 = 3 ∧ 0 ≤ c2 ∧ c2 < 8 ∧ ¬ (g.board 3 c2).type = PieceType.EMPTY then g.board 3 c2 else (fun r2 c2 => if r2 = 2 ∧ 0 ≤ c2 ∧ c2 < 8 ∧ ¬ (g.board 2 c2).type = PieceType.EMPTY then g.board 2 c2 else (fun r2 c2 => if r2 = 1 ∧ 0 ≤ c2 ∧ c2 < 8 ∧ ¬ (g.board 1 c2).type = PieceType.EMPTY then g.board 1 c2 else (fun r2 c2 => if r2 = 0 ∧ 0 ≤ c2 ∧ c2 < 8 ∧ ¬ (g.board 0 c2).type = PieceType.EMPTY then g.board 0 c2 else (fun _ _ => emptyPiece) r2 c2) r2 c2) r2 c2) r2 c2) r2 c2) r2 c2) r2 c2) r2 c2) = g.board := by
      funext r c
      simp only []
      split_ifs with hc7 hc6 hc5 hc4 hc3 hc2 hc1 hc0
      · rw [hc7.1]
      · rw [hc6.1]
      · rw [hc5.1]
      · rw [hc4.1]
      · rw [hc3.1]
      · rw [hc2.1]
      · rw [hc1.1]
      · rw [hc0.1]
      · by_cases hv : is_valid_position r c = true
        · have hb : 0 ≤ r ∧ r < 8 ∧ 0 ≤ c ∧ c < 8 := by
            simpa [is_valid_position, decide_eq_true_eq] using hv
          by_cases hne : (g.board r c).type = PieceType.EMPTY
          · exact (hn.1 r c hne).symm
          · exfalso
            have hr0 : ¬ r = 0 := fun hh =>
              hc0 ⟨hh, hb.2.2.1, hb.2.2.2, by rw [← hh]; exact hne⟩
            have hr1 : ¬ r = 1 := fun hh =>
              hc1 ⟨hh, hb.2.2.1, hb.2.2.2, by rw [← hh]; exact hne⟩
            have hr2 : ¬ r = 2 := fun hh =>
              hc2 ⟨hh, hb.2.2.1, hb.2.2.2, by rw [← hh]; exact hne⟩
            have hr3 : ¬ r = 3 := fun hh =>
              hc3 ⟨hh, hb.2.2.1, hb.2.2.2, by rw [← hh]; exact hne⟩
            have hr4 : ¬ r = 4 := fun hh =>
              hc4 ⟨hh, hb.2.2.1, hb.2.2.2, by rw [← hh]; exact hne⟩
            have hr5 : ¬ r = 5 := fun hh =>
              hc5 ⟨hh, hb.2.2.1, hb.2.2.2, by rw [← hh]; exact hne⟩
            have hr6 : ¬ r = 6 := fun hh =>
              hc6 ⟨hh, hb.2.2.1, hb.2.2.2, by rw [← hh]; exact hne⟩
            have hr7 : ¬ r = 7 := fun hh =>
              hc7 ⟨hh, hb.2.2.1, hb.2.2.2, by rw [← hh]; exact hne⟩
            omega
        · exact (hn.2 r c (by revert hv; cases is_valid_position r c <;> simp)).symm
    rw [hB]
  · intro hw
    rw [hasKing_iff] at hw
    obtain ⟨r, c, h1, h2, h3, h4, hk⟩ := hw
    have hr : r = 0 ∨ r = 1 ∨ r = 2 ∨ r = 3 ∨ r = 4 ∨ r = 5 ∨ r = 6 ∨ r = 7 := by omega
    rcases hr with h | h | h | h | h | h | h | h <;> subst h
    · exact hm18 (hm17 (hm16 (hm15 (hm14 (hm13 (hm12 (hf11 ⟨c, h3, h4, hk⟩)))))))
    · exact hm18 (hm17 (hm16 (hm15 (hm14 (hm13 (hf12 ⟨c, h3, h4, hk⟩))))))
    · exact hm18 (hm17 (hm16 (hm15 (hm14 (hf13 ⟨c, h3, h4, hk⟩)))))
    · exact hm18 (hm17 (hm16 (hm15 (hf14 ⟨c, h3, h4, hk⟩))))
    · exact hm18 (hm17 (hm16 (hf15 ⟨c, h3, h4, hk⟩)))
    · exact hm18 (hm17 (hf16 ⟨c, h3, h4, hk⟩))
    · exact hm18 (hf17 ⟨c, h3, h4, hk⟩)
    · exact hf18 ⟨c, h3, h4, hk⟩
  · intro hw
    rw [hasKing_iff] at hw
    obtain ⟨r, c, h1, h2, h3, h4, hk⟩ := hw
    have hr : r = 0 ∨ r = 1 ∨ r = 2 ∨ r = 3 ∨ r = 4 ∨ r = 5 ∨ r = 6 ∨ r = 7 := by omega
    rcases hr with h | h | h | h | h | h | h | h <;> subst h
    · exact hm28 (hm27 (hm26 (hm25 (hm24 (hm23 (hm22 (hf21 ⟨c, h3, h4, hk⟩)))))))
    · exact hm28 (hm27 (hm26 (hm25 (hm24 (hm23 (hf22 ⟨c, h3, h4, hk⟩))))))
    · exact hm28 (hm27 (hm26 (hm25 (hm24 (hf23 ⟨c, h3, h4, hk⟩)))))
    · exact hm28 (hm27 (hm26 (hm25 (hf24 ⟨c, h3, h4, hk⟩))))
    · exact hm28 (hm27 (hm26 (hf25 ⟨c, h3, h4, hk⟩)))
    · exact hm28 (hm27 (hf26 ⟨c, h3, h4, hk⟩))
    · exact hm28 (hf27 ⟨c, h3, h4, hk⟩)
    · exact hf28 ⟨c, h3, h4, hk⟩

end Chess

namespace Chess

theorem parseCastlingAux_castlingFen (g h : ChessGame) (rest : List Char) :
    (parseCastlingAux (castlingFen g ++ ' ' :: rest)
      { h with
        white_king_moved := true, black_king_moved := true,
        white_rook_a_moved := true, white_rook_h_moved := true,
        black_rook_a_moved := true, black_rook_h_moved := true }).2 = ' ' :: rest ∧
    (parseCastlingAux (castlingFen g ++ ' ' :: rest)
      { h with
        white_king_moved := true, black_king_moved := true,
        white_rook_a_moved := true, white_rook_h_moved := true,
        black_rook_a_moved := true, black_rook_h_moved := true }).1.board = h.board ∧
    (parseCastlingAux (castlingFen g ++ ' ' :: rest)
      { h with
        white_king_moved := true, black_king_moved := true,
        white_rook_a_moved := true, white_rook_h_moved := true,
        black_rook_a_moved := true, black_rook_h_moved := true }).1.current_player = h.current_player ∧
    (parseCastlingAux (castlingFen g ++ ' ' :: rest)
      { h with
        white_king_moved := true, black_king_moved := true,
        white_rook_a_moved := true, white_rook_h_moved := true,
        black_rook_a_moved := true, black_rook_h_moved := true }).1.white_king_pos = h.white_king_pos ∧
    (parseCastlingAux (castlingFen g ++ ' ' :: rest)
      { h with
        white_king_moved := true, black_king_moved := true,
        white_rook_a_moved := true, white_rook_h_moved := true,
        black_rook_a_moved := true, black_rook_h_moved := true }).1.black_king_pos = h.black_king_pos ∧
    ((!(parseCastlingAux (castlingFen g ++ ' ' :: rest)
      { h with
        white_king_moved := true, black_king_moved := true,
        white_rook_a_moved := true, white_rook_h_moved := true,
        black_rook_a_moved := true, black_rook_h_moved := true }).1.white_king_moved && !(parseCastlingAux (castlingFen g ++ ' ' :: rest)
      { h with
        white_king_moved := true, black_king_moved := true,
        white_rook_a_moved := true, white_rook_h_moved := true,
        black_rook_a_moved := true, black_rook_h_moved := true }).1.white_rook_h_moved) =
      (!g.white_king_moved && !g.white_rook_h_moved)) ∧
    ((!(parseCastlingAux (castlingFen g ++ ' ' :: rest)
      { h with
        white_king_moved := true, black_king_moved := true,
        white_rook_a_moved := true, white_rook_h_moved := true,
        black_rook_a_moved := true, black_rook_h_moved := true }).1.white_king_moved && !(parseCastlingAux (castlingFen g ++ ' ' :: rest)
      { h with
        white_king_moved := true, black_king_moved := true,
        white_rook_a_moved := true, white_rook_h_moved := true,
        black_rook_a_moved := true, black_rook_h_moved := true }).1.white_rook_a_moved) =
      (!g.white_king_moved && !g.white_rook_a_moved)) ∧
    ((!(parseCastlingAux (castlingFen g ++ ' ' :: rest)
      { h with
        white_king_moved := true, black_king_moved := true,
        white_rook_a_moved := true, white_rook_h_moved := true,
        black_rook_a_moved := true, black_rook_h_moved := true }).1.black_king_moved && !(parseCastlingAux (castlingFen g ++ ' ' :: rest)
      { h with
        white_king_moved := true, black_king_moved := true,
        white_rook_a_moved := true, white_rook_h_moved := true,
        black_rook_a_moved := true, black_rook_h_moved := true }).1.black_rook_h_moved) =
      (!g.black_king_moved && !g.black_rook_h_moved)) ∧
    ((!(parseCastlingAux (castlingFen g ++ ' ' :: rest)
      { h with
        white_king_moved := true, black_king_moved := true,
        white_rook_a_moved := true, white_rook_h_moved := true,
        black_rook_a_moved := true, black_rook_h_moved := true }).1.black_king_moved && !(parseCastlingAux (castlingFen g ++ ' ' :: rest)
      { h with
        white_king_moved := true, black_king_moved := true,
        white_rook_a_moved := true, white_rook_h_moved := true,
        black_rook_a_moved := true, black_rook_h_moved := true }).1.black_rook_a_moved) =
      (!g.black_king_moved && !g.black_rook_a_moved)) := by
  cases hwk : g.white_king_moved <;> cases hwrh : g.white_rook_h_moved <;>
    cases hwra : g.white_rook_a_moved <;> cases hbk : g.black_king_moved <;>
    cases hbrh : g.black_rook_h_moved <;> cases hbra : g.black_rook_a_moved <;>
    simp only [castlingFen, hwk, hwrh, hwra, hbk, hbrh, hbra] <;>
    exact ⟨rfl, rfl, rfl, rfl, rfl, rfl, rfl, rfl, rfl⟩

end Chess

namespace Chess

theorem parseEP_epFen (g : ChessGame) (rest : List Char)
    (hWF1 : g.en_passant_available = true →
      0 ≤ g.en_passant_target.row ∧ g.en_passant_target.row < 8 ∧
      0 ≤ g.en_passant_target.col ∧ g.en_passant_target.col < 8)
    (hWF2 : g.en_passant_available = false →
      g.en_passant_target = (⟨-1, -1⟩ : Position)) :
    (parseEP ((epFen g ++ ' ' :: rest).dropWhile (fun c => c = ' '))).1 =
      g.en_passant_available ∧
    (parseEP ((epFen g ++ ' ' :: rest).dropWhile (fun c => c = ' '))).2.1 =
      g.en_passant_target ∧
    (((parseEP ((epFen g ++ ' ' :: rest).dropWhile (fun c => c = ' '))).2.2.dropWhile
        (fun c => ¬ (c = ' '))).dropWhile (fun c => c = ' ')) =
      rest.dropWhile (fun c => c = ' ') := by
  cases hav : g.en_passant_available
  · rw [hWF2 hav]
    unfold epFen
    rw [if_neg (by simp [hav])]
    exact ⟨rfl, rfl, rfl⟩
  · obtain ⟨h1, h2, h3, h4⟩ := hWF1 hav
    rcases ht : g.en_passant_target with ⟨tr, tc⟩
    rw [ht] at h1 h2 h3 h4
    simp only at h1 h2 h3 h4
    unfold epFen
    rw [hav, ht]
    rw [if_pos (by simp; omega)]
    simp only
    interval_cases tr <;> interval_cases tc <;>
      exact ⟨rfl, rfl, rfl⟩

end Chess

namespace Chess

theorem parseNatAux_natDec (m : Nat) (rest : List Char) :
    parseNatAux (natDec m ++ rest) 0 = parseNatAux rest m := by
  rw [parseNatAux_digits _ _ 0 (natDec_all_digits m), natDec_foldl]

theorem parseNatAux_space (cs : List Char) (acc : Nat) :
    parseNatAux (' ' :: cs) acc = (acc, ' ' :: cs) := by
  conv_lhs => rw [parseNatAux]
  rw [if_neg (by decide)]

theorem natDec_head_digit (m : Nat) :
    ∃ c cs, natDec m = c :: cs ∧ isDigitChar c = true ∧ ¬ c = ' ' := by
  cases hnd : natDec m with
  | nil => exact absurd hnd (natDec_ne_nil m)
  | cons c cs =>
    have hd : isDigitChar c = true := natDec_all_digits m c (by rw [hnd]; simp)
    refine ⟨c, cs, rfl, hd, ?_⟩
    intro hsp
    subst hsp
    exact absurd hd (by decide)

end Chess

namespace Chess

theorem parseCastlingAux_board : ∀ (cs : List Char) (gI : ChessGame),
    (parseCastlingAux cs gI).1.board = gI.board := by
  intro cs
  induction cs with
  | nil => intro gI; rfl
  | cons c cs ih =>
    intro gI
    unfold parseCastlingAux
    split_ifs <;> first | rfl | (rw [ih])

theorem parseCastlingAux_player : ∀ (cs : List Char) (gI : ChessGame),
    (parseCastlingAux cs gI).1.current_player = gI.current_player := by
  intro cs
  induction cs with
  | nil => intro gI; rfl
  | cons c cs ih =>
    intro gI
    unfold parseCastlingAux
    split_ifs <;> first | rfl | (rw [ih])

theorem parseCastlingAux_wkpos : ∀ (cs : List Char) (gI : ChessGame),
    (parseCastlingAux cs gI).1.white_king_pos = gI.white_king_pos := by
  intro cs
  induction cs with
  | nil => intro gI; rfl
  | cons c cs ih =>
    intro gI
    unfold parseCastlingAux
    split_ifs <;> first | rfl | (rw [ih])

theorem parseCastlingAux_bkpos : ∀ (cs : List Char) (gI : ChessGame),
    (parseCastlingAux cs gI).1.black_king_pos = gI.black_king_pos := by
  intro cs
  induction cs with
  | nil => intro gI; rfl
  | cons c cs ih =>
    intro gI
    unfold parseCastlingAux
    split_ifs <;> first | rfl | (rw [ih])

theorem parseCastlingAux_epa : ∀ (cs : List Char) (gI : ChessGame),
    (parseCastlingAux cs gI).1.en_passant_available = gI.en_passant_available := by
  intro cs
  induction cs with
  | nil => intro gI; rfl
  | cons c cs ih =>
    intro gI
    unfold parseCastlingAux
    split_ifs <;> first | rfl | (rw [ih])

theorem parseCastlingAux_snd : ∀ (cs : List Char) (gI : ChessGame) (rest : List Char),
    (∀ c ∈ cs, ¬ c = ' ') →
    (parseCastlingAux (cs ++ ' ' :: rest) gI).2 = ' ' :: rest := by
  intro cs
  induction cs with
  | nil =>
    intro gI rest hns
    simp only [List.nil_append]
    unfold parseCastlingAux
    rw [if_pos rfl]
  | cons c cs ih =>
    intro gI rest hns
    simp only [List.cons_append]
    unfold parseCastlingAux
    rw [if_neg (hns c (by simp))]
    exact ih _ rest fun x hx => hns x (by simp [hx])

theorem castlingFen_no_space (g : ChessGame) : ∀ c ∈ castlingFen g, ¬ c = ' ' := by
  cases hwk : g.white_king_moved <;> cases hwrh : g.white_rook_h_moved <;>
    cases hwra : g.white_rook_a_moved <;> cases hbk : g.black_king_moved <;>
    cases hbrh : g.black_rook_h_moved <;> cases hbra : g.black_rook_a_moved <;>
    simp only [castlingFen, hwk, hwrh, hwra, hbk, hbrh, hbra] <;> decide

theorem parseCastling_snd (g : ChessGame) (gI : ChessGame) (rest : List Char) :
    (parseCastlingAux (castlingFen g ++ ' ' :: rest) gI).2 = ' ' :: rest :=
  parseCastlingAux_snd _ gI rest (castlingFen_no_space g)

end Chess

namespace Chess

theorem parseCastling_flags (g gI : ChessGame) (rest : List Char)
    (h1 : gI.white_king_moved = true) (h2 : gI.black_king_moved = true)
    (h3 : gI.white_rook_a_moved = true) (h4 : gI.white_rook_h_moved = true)
    (h5 : gI.black_rook_a_moved = true) (h6 : gI.black_rook_h_moved = true) :
    ((!(parseCastlingAux (castlingFen g ++ ' ' :: rest) gI).1.white_king_moved &&
      !(parseCastlingAux (castlingFen g ++ ' ' :: rest) gI).1.white_rook_h_moved) =
      (!g.white_king_moved && !g.white_rook_h_moved)) ∧
    ((!(parseCastlingAux (castlingFen g ++ ' ' :: rest) gI).1.white_king_moved &&
      !(parseCastlingAux (castlingFen g ++ ' ' :: rest) gI).1.white_rook_a_moved) =
      (!g.white_king_moved && !g.white_rook_a_moved)) ∧
    ((!(parseCastlingAux (castlingFen g ++ ' ' :: rest) gI).1.black_king_moved &&
      !(parseCastlingAux (castlingFen g ++ ' ' :: rest) gI).1.black_rook_h_moved) =
      (!g.black_king_moved && !g.black_rook_h_moved)) ∧
    ((!(parseCastlingAux (castlingFen g ++ ' ' :: rest) gI).1.black_king_moved &&
      !(parseCastlingAux (castlingFen g ++ ' ' :: rest) gI).1.black_rook_a_moved) =
      (!g.black_king_moved && !g.black_rook_a_moved)) := by
  have hU : ({ gI with
      white_king_moved := true, black_king_moved := true,
      white_rook_a_moved := true, white_rook_h_moved := true,
      black_rook_a_moved := true, black_rook_h_moved := true } : ChessGame) = gI := by
    cases gI
    congr <;> first
      | exact h1.symm | exact h2.symm | exact h3.symm
      | exact h4.symm | exact h5.symm | exact h6.symm
  have hc := parseCastlingAux_castlingFen g gI rest
  rw [hU] at hc
  exact ⟨hc.2.2.2.2.2.1, hc.2.2.2.2.2.2.1, hc.2.2.2.2.2.2.2.1, hc.2.2.2.2.2.2.2.2⟩

theorem parseCastling_rightK (g gI : ChessGame) (rest : List Char)
    (h1 : gI.white_king_moved = true) (h2 : gI.black_king_moved = true)
    (h3 : gI.white_rook_a_moved = true) (h4 : gI.white_rook_h_moved = true)
    (h5 : gI.black_rook_a_moved = true) (h6 : gI.black_rook_h_moved = true) :
    (!(parseCastlingAux (castlingFen g ++ ' ' :: rest) gI).1.white_king_moved &&
      !(parseCastlingAux (castlingFen g ++ ' ' :: rest) gI).1.white_rook_h_moved) =
      (!g.white_king_moved && !g.white_rook_h_moved) :=
  (parseCastling_flags g gI rest h1 h2 h3 h4 h5 h6).1

theorem parseCastling_rightQ (g gI : ChessGame) (rest : List Char)
    (h1 : gI.white_king_moved = true) (h2 : gI.black_king_moved = true)
    (h3 : gI.white_rook_a_moved = true) (h4 : gI.white_rook_h_moved = true)
    (h5 : gI.black_rook_a_moved = true) (h6 : gI.black_rook_h_moved = true) :
    (!(parseCastlingAux (castlingFen g ++ ' ' :: rest) gI).1.white_king_moved &&
      !(parseCastlingAux (castlingFen g ++ ' ' :: rest) gI).1.white_rook_a_moved) =
      (!g.white_king_moved && !g.white_rook_a_moved) :=
  (parseCastling_flags g gI rest h1 h2 h3 h4 h5 h6).2.1

theorem parseCastling_rightk2 (g gI : ChessGame) (rest : List Char)
    (h1 : gI.white_king_moved = true) (h2 : gI.black_king_moved = true)
    (h3 : gI.white_rook_a_moved = true) (h4 : gI.white_rook_h_moved = true)
    (h5 : gI.black_rook_a_moved = true) (h6 : gI.black_rook_h_moved = true) :
    (!(parseCastlingAux (castlingFen g ++ ' ' :: rest) gI).1.black_king_moved &&
      !(parseCastlingAux (castlingFen g ++ ' ' :: rest) gI).1.black_rook_h_moved) =
      (!g.black_king_moved && !g.black_rook_h_moved) :=
  (parseCastling_flags g gI rest h1 h2 h3 h4 h5 h6).2.2.1

theorem parseCastling_rightq2 (g gI : ChessGame) (rest : List Char)
    (h1 : gI.white_king_moved = true) (h2 : gI.black_king_moved = true)
    (h3 : gI.white_rook_a_moved = true) (h4 : gI.white_rook_h_moved = true)
    (h5 : gI.black_rook_a_moved = true) (h6 : gI.black_rook_h_moved = true) :
    (!(parseCastlingAux (castlingFen g ++ ' ' :: rest) gI).1.black_king_moved &&
      !(parseCastlingAux (castlingFen g ++ ' ' :: rest) gI).1.black_rook_a_moved) =
      (!g.black_king_moved && !g.black_rook_a_moved) :=
  (parseCastling_flags g gI rest h1 h2 h3 h4 h5 h6).2.2.2

end Chess

namespace Chess

theorem parseNatAux_natDec_nil (m : Nat) : parseNatAux (natDec m) 0 = (m, []) := by
  rw [← List.append_nil (natDec m), parseNatAux_natDec]
  rfl

end Chess

namespace Chess

set_option maxHeartbeats 2000000 in
theorem setup_of_board_to_fen (g h : ChessGame) (hWF : WF g)
    (hwk : hasKing g Color.WHITE = true) (hbk : hasKing g Color.BLACK = true) :
    (setup_board_from_fen h (board_to_fen g)).1 = true ∧
    (setup_board_from_fen h (board_to_fen g)).2.board = g.board ∧
    (setup_board_from_fen h (board_to_fen g)).2.current_player = g.current_player ∧
    ((!(setup_board_from_fen h (board_to_fen g)).2.white_king_moved &&
      !(setup_board_from_fen h (board_to_fen g)).2.white_rook_h_moved) =
      (!g.white_king_moved && !g.white_rook_h_moved)) ∧
    ((!(setup_board_from_fen h (board_to_fen g)).2.white_king_moved &&
      !(setup_board_from_fen h (board_to_fen g)).2.white_rook_a_moved) =
      (!g.white_king_moved && !g.white_rook_a_moved)) ∧
    ((!(setup_board_from_fen h (board_to_fen g)).2.black_king_moved &&
      !(setup_board_from_fen h (board_to_fen g)).2.black_rook_h_moved) =
      (!g.black_king_moved && !g.black_rook_h_moved)) ∧
    ((!(setup_board_from_fen h (board_to_fen g)).2.black_king_moved &&
      !(setup_board_from_fen h (board_to_fen g)).2.black_rook_a_moved) =
      (!g.black_king_moved && !g.black_rook_a_moved)) ∧
    (setup_board_from_fen h (board_to_fen g)).2.en_passant_available =
      g.en_passant_available ∧
    (setup_board_from_fen h (board_to_fen g)).2.en_passant_target = g.en_passant_target ∧
    (setup_board_from_fen h (board_to_fen g)).2.halfmove_clock = g.halfmove_clock ∧
    (setup_board_from_fen h (board_to_fen g)).2.fullmove_number = g.fullmove_number := by
  obtain ⟨hnorm, hep1, hep2, hhm0, hfm0⟩ := hWF
  obtain ⟨c1, cs1, hnd1, hdg1, hsp1⟩ := natDec_head_digit g.halfmove_clock.toNat
  obtain ⟨c2, cs2, hnd2, hdg2, hsp2⟩ := natDec_head_digit g.fullmove_number.toNat
  have hid1 : intDec g.halfmove_clock = natDec g.halfmove_clock.toNat := by
    unfold intDec
    rw [if_neg (by omega)]
  have hid2 : intDec g.fullmove_number = natDec g.fullmove_number.toNat := by
    unfold intDec
    rw [if_neg (by omega)]
  cases hcp : g.current_player
  · obtain ⟨wk', bk', hpr, hwkp, hbkp⟩ := parseBoardAux_boardFen g
      ('w' :: ' ' :: (castlingFen g ++ ' ' :: (epFen g ++ ' ' :: (intDec g.halfmove_clock ++ ' ' :: intDec g.fullmove_number)))) hnorm
    have hw8 : 0 ≤ wk'.row := hwkp hwk
    have hb8 : 0 ≤ bk'.row := hbkp hbk
    have hEP := parseEP_epFen g (intDec g.halfmove_clock ++ ' ' :: intDec g.fullmove_number) hep1 hep2
    have hfen : board_to_fen g = boardFen g ++ ' ' :: 'w' :: ' ' :: (castlingFen g ++ ' ' :: (epFen g ++ ' ' :: (intDec g.halfmove_clock ++ ' ' :: intDec g.fullmove_number))) := by
      unfold board_to_fen
      rw [hcp, if_pos rfl]
    rw [hfen]
    unfold setup_board_from_fen
    rw [if_neg (fun hcon => hcon (by rw [← hfen]; exact validate_board_to_fen g))]
    dsimp only []
    rw [hpr]
    dsimp only []
    rw [show skipOneSpace (' ' :: 'w' :: ' ' :: (castlingFen g ++ ' ' :: (epFen g ++ ' ' :: (intDec g.halfmove_clock ++ ' ' :: intDec g.fullmove_number)))) = 'w' :: ' ' :: (castlingFen g ++ ' ' :: (epFen g ++ ' ' :: (intDec g.halfmove_clock ++ ' ' :: intDec g.fullmove_number))) from rfl]
    rw [show parseColor ('w' :: ' ' :: (castlingFen g ++ ' ' :: (epFen g ++ ' ' :: (intDec g.halfmove_clock ++ ' ' :: intDec g.fullmove_number)))) = Color.WHITE from rfl]
    rw [show List.dropWhile (fun c => ¬ (c = ' ')) ('w' :: ' ' :: (castlingFen g ++ ' ' :: (epFen g ++ ' ' :: (intDec g.halfmove_clock ++ ' ' :: intDec g.fullmove_number)))) =
      ' ' :: (castlingFen g ++ ' ' :: (epFen g ++ ' ' :: (intDec g.halfmove_clock ++ ' ' :: intDec g.fullmove_number))) from rfl]
    rw [show skipOneSpace (' ' :: (castlingFen g ++ ' ' :: (epFen g ++ ' ' :: (intDec g.halfmove_clock ++ ' ' :: intDec g.fullmove_number)))) = castlingFen g ++ ' ' :: (epFen g ++ ' ' :: (intDec g.halfmove_clock ++ ' ' :: intDec g.fullmove_number)) from rfl]
    rw [parseCastling_snd g]
    rw [parseCastlingAux_board, parseCastlingAux_player, parseCastlingAux_wkpos,
      parseCastlingAux_bkpos]
    dsimp only []
    rw [show List.dropWhile (fun c => c = ' ') (' ' :: (epFen g ++ ' ' :: (intDec g.halfmove_clock ++ ' ' :: intDec g.fullmove_number))) =
      List.dropWhile (fun c => c = ' ') (epFen g ++ ' ' :: (intDec g.halfmove_clock ++ ' ' :: intDec g.fullmove_number)) from rfl]
    rw [hEP.1, hEP.2.1, hEP.2.2]
    rw [hid1, hid2, hnd1, hnd2, List.cons_append, List.dropWhile_cons,
      if_neg (show ¬ (decide (c1 = ' ') = true) from by simp [hsp1])]
    dsimp only []
    rw [if_pos (show isDigitChar c1 = true from hdg1)]
    rw [show c1 :: (cs1 ++ ' ' :: (c2 :: cs2)) = (c1 :: cs1) ++ (' ' :: (c2 :: cs2))
      from rfl]
    rw [← hnd1, parseNatAux_natDec, parseNatAux_space]
    dsimp only []
    rw [show List.dropWhile (fun c => c = ' ') (' ' :: c2 :: cs2) =
      List.dropWhile (fun c => c = ' ') (c2 :: cs2) from rfl]
    rw [List.dropWhile_cons,
      if_neg (show ¬ (decide (c2 = ' ') = true) from by simp [hsp2])]
    dsimp only []
    rw [if_pos (show isDigitChar c2 = true from hdg2)]
    rw [← hnd2, parseNatAux_natDec_nil]
    dsimp only []
    rw [Int.toNat_of_nonneg hhm0, Int.toNat_of_nonneg hfm0]
    unfold calculate_captured_pieces
    dsimp only []
    rw [if_neg (show ¬ (wk'.row = -1 ∨ bk'.row = -1) from by
      rintro (hco | hco) <;> omega)]
    dsimp only []
    rw [parseCastling_rightK g, parseCastling_rightQ g, parseCastling_rightk2 g,
      parseCastling_rightq2 g]
    exact ⟨rfl, rfl, rfl, rfl, rfl, rfl, rfl, rfl, rfl, rfl, rfl⟩
    all_goals rfl
  · obtain ⟨wk', bk', hpr, hwkp, hbkp⟩ := parseBoardAux_boardFen g
      ('b' :: ' ' :: (castlingFen g ++ ' ' :: (epFen g ++ ' ' :: (intDec g.halfmove_clock ++ ' ' :: intDec g.fullmove_number)))) hnorm
    have hw8 : 0 ≤ wk'.row := hwkp hwk
    have hb8 : 0 ≤ bk'.row := hbkp hbk
    have hEP := parseEP_epFen g (intDec g.halfmove_clock ++ ' ' :: intDec g.fullmove_number) hep1 hep2
    have hfen : board_to_fen g = boardFen g ++ ' ' :: 'b' :: ' ' :: (castlingFen g ++ ' ' :: (epFen g ++ ' ' :: (intDec g.halfmove_clock ++ ' ' :: intDec g.fullmove_number))) := by
      unfold board_to_fen
      rw [hcp, if_neg (by decide)]
    rw [hfen]
    unfold setup_board_from_fen
    rw [if_neg (fun hcon => hcon (by rw [← hfen]; exact validate_board_to_fen g))]
    dsimp only []
    rw [hpr]
    dsimp only []
    rw [show skipOneSpace (' ' :: 'b' :: ' ' :: (castlingFen g ++ ' ' :: (epFen g ++ ' ' :: (intDec g.halfmove_clock ++ ' ' :: intDec g.fullmove_number)))) = 'b' :: ' ' :: (castlingFen g ++ ' ' :: (epFen g ++ ' ' :: (intDec g.halfmove_clock ++ ' ' :: intDec g.fullmove_number))) from rfl]
    rw [show parseColor ('b' :: ' ' :: (castlingFen g ++ ' ' :: (epFen g ++ ' ' :: (intDec g.halfmove_clock ++ ' ' :: intDec g.fullmove_number)))) = Color.BLACK from rfl]
    rw [show List.dropWhile (fun c => ¬ (c = ' ')) ('b' :: ' ' :: (castlingFen g ++ ' ' :: (epFen g ++ ' ' :: (intDec g.halfmove_clock ++ ' ' :: intDec g.fullmove_number)))) =
      ' ' :: (castlingFen g ++ ' ' :: (epFen g ++ ' ' :: (intDec g.halfmove_clock ++ ' ' :: intDec g.fullmove_number))) from rfl]
    rw [show skipOneSpace (' ' :: (castlingFen g ++ ' ' :: (epFen g ++ ' ' :: (intDec g.halfmove_clock ++ ' ' :: intDec g.fullmove_number)))) = castlingFen g ++ ' ' :: (epFen g ++ ' ' :: (intDec g.halfmove_clock ++ ' ' :: intDec g.fullmove_number)) from rfl]
    rw [parseCastling_snd g]
    rw [parseCastlingAux_board, parseCastlingAux_player, parseCastlingAux_wkpos,
      parseCastlingAux_bkpos]
    dsimp only []
    rw [show List.dropWhile (fun c => c = ' ') (' ' :: (epFen g ++ ' ' :: (intDec g.halfmove_clock ++ ' ' :: intDec g.fullmove_number))) =
      List.dropWhile (fun c => c = ' ') (epFen g ++ ' ' :: (intDec g.halfmove_clock ++ ' ' :: intDec g.fullmove_number)) from rfl]
    rw [hEP.1, hEP.2.1, hEP.2.2]
    rw [hid1, hid2, hnd1, hnd2, List.cons_append, List.dropWhile_cons,
      if_neg (show ¬ (decide (c1 = ' ') = true) from by simp [hsp1])]
    dsimp only []
    rw [if_pos (show isDigitChar c1 = true from hdg1)]
    rw [show c1 :: (cs1 ++ ' ' :: (c2 :: cs2)) = (c1 :: cs1) ++ (' ' :: (c2 :: cs2))
      from rfl]
    rw [← hnd1, parseNatAux_natDec, parseNatAux_space]
    dsimp only []
    rw [show List.dropWhile (fun c => c = ' ') (' ' :: c2 :: cs2) =
      List.dropWhile (fun c => c = ' ') (c2 :: cs2) from rfl]
    rw [List.dropWhile_cons,
      if_neg (show ¬ (decide (c2 = ' ') = true) from by simp [hsp2])]
    dsimp only []
    rw [if_pos (show isDigitChar c2 = true from hdg2)]
    rw [← hnd2, parseNatAux_natDec_nil]
    dsimp only []
    rw [Int.toNat_of_nonneg hhm0, Int.toNat_of_nonneg hfm0]
    unfold calculate_captured_pieces
    dsimp only []
    rw [if_neg (show ¬ (wk'.row = -1 ∨ bk'.row = -1) from by
      rintro (hco | hco) <;> omega)]
    dsimp only []
    rw [parseCastling_rightK g, parseCastling_rightQ g, parseCastling_rightk2 g,
      parseCastling_rightq2 g]
    exact ⟨rfl, rfl, rfl, rfl, rfl, rfl, rfl, rfl, rfl, rfl, rfl⟩
    all_goals rfl

end Chess

namespace Chess

theorem Reachable_playAll : ∀ (ms : List (Position × Position)) (g : ChessGame),
    Reachable g → (playAll ms g).1 = true → Reachable (playAll ms g).2 := by
  intro ms
  induction ms with
  | nil =>
    intro g hg _
    exact hg
  | cons m ms ih =>
    intro g hg hok
    unfold playAll at hok ⊢
    simp only [] at hok ⊢
    by_cases hr : (make_move PieceType.QUEEN g m.1 m.2).1 = true
    · rw [if_pos hr] at hok ⊢
      exact ih _ (Reachable.step PieceType.QUEEN g m.1 m.2 hg hr) hok
    · rw [if_neg hr] at hok
      simp at hok

/-- C3: counterexample.  The position reached from the initial board by the
fourteen accepted half-moves of kcMoves (ending with the black rook
capturing the white king, enabled by the en-passant filter bug) is
reachable, yet decoding its own encoding fails: the serialized position
has no white king, so setup_board_from_fen returns false instead of
reproducing the state. -/
theorem C3_counterexample :
    Reachable kingCapturedGame ∧
    (setup_board_from_fen kingCapturedGame (board_to_fen kingCapturedGame)).1 = false := by
  constructor
  · have hok : (playAll kcMoves init_board).1 = true := by decide
    have hre := Reachable_playAll kcMoves init_board Reachable.init hok
    unfold kingCapturedGame
    exact hre
  · decide

/-- C3 (amended): for every reachable position that still has both kings on
the board, decoding its encoding succeeds and reproduces the board
contents, side to move, the four derived castling rights, the en-passant
availability and target, the halfmove clock, and the fullmove number
exactly, regardless of the prior state the decode starts from. -/
theorem C3_amended (g h : ChessGame) (hr : Reachable g)
    (hwk : hasKing g Color.WHITE = true) (hbk : hasKing g Color.BLACK = true) :
    (setup_board_from_fen h (board_to_fen g)).1 = true ∧
    (setup_board_from_fen h (board_to_fen g)).2.board = g.board ∧
    (setup_board_from_fen h (board_to_fen g)).2.current_player = g.current_player ∧
    ((!(setup_board_from_fen h (board_to_fen g)).2.white_king_moved &&
      !(setup_board_from_fen h (board_to_fen g)).2.white_rook_h_moved) =
      (!g.white_king_moved && !g.white_rook_h_moved)) ∧
    ((!(setup_board_from_fen h (board_to_fen g)).2.white_king_moved &&
      !(setup_board_from_fen h (board_to_fen g)).2.white_rook_a_moved) =
      (!g.white_king_moved && !g.white_rook_a_moved)) ∧
    ((!(setup_board_from_fen h (board_to_fen g)).2.black_king_moved &&
      !(setup_board_from_fen h (board_to_fen g)).2.black_rook_h_moved) =
      (!g.black_king_moved && !g.black_rook_h_moved)) ∧
    ((!(setup_board_from_fen h (board_to_fen g)).2.black_king_moved &&
      !(setup_board_from_fen h (board_to_fen g)).2.black_rook_a_moved) =
      (!g.black_king_moved && !g.black_rook_a_moved)) ∧
    (setup_board_from_fen h (board_to_fen g)).2.en_passant_available =
      g.en_passant_available ∧
    (setup_board_from_fen h (board_to_fen g)).2.en_passant_target = g.en_passant_target ∧
    (setup_board_from_fen h (board_to_fen g)).2.halfmove_clock = g.halfmove_clock ∧
    (setup_board_from_fen h (board_to_fen g)).2.fullmove_number = g.fullmove_number :=
  setup_of_board_to_fen g h (Reachable_WF g hr) hwk hbk

/-- C3 witness: the round trip at the standard initial position. -/
theorem C3_amended_witness :
    Reachable init_board ∧ hasKing init_board Color.WHITE = true ∧
    hasKing init_board Color.BLACK = true ∧
    (setup_board_from_fen init_board (board_to_fen init_board)).1 = true ∧
    (setup_board_from_fen init_board (board_to_fen init_board)).2.board =
      init_board.board :=
  ⟨Reachable.init, by decide, by decide,
    (C3_amended init_board init_board Reachable.init (by decide) (by decide)).1,
    (C3_amended init_board init_board Reachable.init (by decide) (by decide)).2.1⟩

end Chess
